import Mathlib

/-!
# status-go node client (`src/main.go`): a verification development

The program keeps one WebSocket connection to a coordination server, answers
`ping` and `info` commands and sends heartbeats.  This file embeds

* the wire entity `Message` and the constants of `main.go`;
* the JSON codec that `c.WriteJSON` / `json.Unmarshal` apply to a `Message`
  (struct tags of lines 27-35, `encoding/json` rules for strings, integers,
  `omitempty` and `json.RawMessage`);
* the two handlers `handlePing` and `handleInfo`, with the library calls they
  make taken as parameters;
* `connectWebSocket` as a step function on an explicit state: the supervisor
  loop, the receive loop, and the goroutines it starts.

Conventions.  Go `string` and `[]byte` values are modelled as Lean `String`
(text that is valid UTF-8); Go `int`, `int64` and `time.Duration` as `Int`/`Nat`
(durations in nanoseconds); the timestamp that prefixes every log line is left
out.  `c.WriteJSON(m)` is recorded as the `Message` handed to it; what goes on
the wire for it is `encode`.  The `defer c.Close()` of line 45 never runs,
because `connectWebSocket` never returns, and is left out.
-/

namespace StatusGo

/-! ## Constants (lines 18-25) -/

/-- One second as a `time.Duration` (nanoseconds). -/
def second : Nat := 1000000000

def webSocketURL : String := "ws://"
def reconnectInterval : Nat := 5 * second
def serverInfoEndpoint : String := "http://127.0.0.1:37549/api/serverinfo"
def authUsername : String := "admin"
def authPassword : String := "SQML"
def timeoutDuration : Nat := 6 * second

/-- Period of the heartbeat goroutine, `30 * time.Second` (line 59). -/
def heartbeatInterval : Nat := 30 * second

/-! ## Data model (lines 27-35) -/

/-- The struct `Message`.  A Go struct has no notion of a missing field: a field
that was never assigned holds its zero value (`""`, `0`, empty `RawMessage`),
which is the default of each field here.  `Type_` is the field `Type`. -/
structure Message where
  Type_ : String := ""
  Sid : String := ""
  Action : String := ""
  IP : String := ""
  UID : String := ""
  Code : Int := 0
  Result : String := ""
deriving DecidableEq

/-! ## Number formatting (`strconv.Itoa`, the verb `%d`) -/

/-- Decimal text of an integer, as `strconv.Itoa` and `%d` print it. -/
def formatInt (n : Int) : String :=
  if n < 0 then "-" ++ Nat.repr n.natAbs else Nat.repr n.toNat

/-! ## JSON text: the scanner shared by encoder and decoder -/

/-- JSON insignificant whitespace. -/
def isSpace (c : Char) : Bool :=
  c = ' ' || c = '\t' || c = '\r' || c = '\n'

/-- Drop leading whitespace. -/
def skipSpace : List Char → List Char
  | [] => []
  | c :: cs => if isSpace c then skipSpace cs else c :: cs

/-- Hexadecimal digit, either case. -/
def isHex (c : Char) : Bool :=
  ('0' ≤ c && c ≤ '9') || ('a' ≤ c && c ≤ 'f') || ('A' ≤ c && c ≤ 'F')

/-- Value of a hexadecimal digit (0 for any other character). -/
def hexVal (c : Char) : Nat :=
  if '0' ≤ c && c ≤ '9' then c.toNat - 48
  else if 'a' ≤ c && c ≤ 'f' then c.toNat - 87
  else if 'A' ≤ c && c ≤ 'F' then c.toNat - 55
  else 0

/-- The escape `\u00XY` / `\uWXYZ` of a code point below 0x10000, lower-case hex. -/
def uEscape (n : Nat) : List Char :=
  ['\\', 'u', Nat.digitChar (n / 4096 % 16), Nat.digitChar (n / 256 % 16),
    Nat.digitChar (n / 16 % 16), Nat.digitChar (n % 16)]

/-- Characters that the encoder never leaves as they are when HTML escaping is on
(the default of `json.Encoder`): `<`, `>`, `&`, U+2028 and U+2029. -/
def isHTML (c : Char) : Bool :=
  c = '<' || c = '>' || c = '&' || c.toNat = 0x2028 || c.toNat = 0x2029

/-- One character of already valid JSON text as `compact` copies it with HTML
escaping on. -/
def htmlEscape (c : Char) : List Char :=
  if isHTML c then uEscape c.toNat else [c]

/-- The letters that may follow a backslash, apart from `u`. -/
def isSimpleEscape (e : Char) : Bool :=
  e = '"' || e = '\\' || e = '/' || e = 'b' || e = 'f' || e = 'n' || e = 'r' || e = 't'

/-- Scan the rest of a string literal, the opening quote already consumed.
Returns the text up to and including the closing quote, HTML-escaped as
`compact` writes it, and the input that follows.  Fails on an unterminated
literal, a control character or a malformed escape. -/
def scanStr : List Char → Option (List Char × List Char)
  | [] => none
  | c :: cs =>
    if c = '"' then some (['"'], cs)
    else if c = '\\' then
      match cs with
      | [] => none
      | e :: cs1 =>
        if e = 'u' then
          match cs1 with
          | h1 :: h2 :: h3 :: h4 :: rest =>
            if isHex h1 && isHex h2 && isHex h3 && isHex h4 then
              (scanStr rest).map fun p => ('\\' :: 'u' :: h1 :: h2 :: h3 :: h4 :: p.1, p.2)
            else none
          | _ => none
        else if isSimpleEscape e then
          (scanStr cs1).map fun p => ('\\' :: e :: p.1, p.2)
        else none
    else if c.toNat < 32 then none
    else (scanStr cs).map fun p => (htmlEscape c ++ p.1, p.2)

/-- Decimal digit. -/
def isDigit (c : Char) : Bool := '0' ≤ c && c ≤ '9'

/-- Split off the longest run of decimal digits. -/
def spanDigits : List Char → List Char × List Char
  | [] => ([], [])
  | c :: cs =>
    if isDigit c then ((c :: (spanDigits cs).1), (spanDigits cs).2) else ([], c :: cs)

/-- Optional exponent part of a number: `e` or `E`, an optional sign, digits. -/
def scanExp (cs : List Char) : Option (List Char × List Char) :=
  match cs with
  | e :: cs1 =>
    if e = 'e' || e = 'E' then
      match cs1 with
      | s :: cs2 =>
        if s = '+' || s = '-' then
          match spanDigits cs2 with
          | ([], _) => none
          | (ds, rest) => some (e :: s :: ds, rest)
        else
          match spanDigits cs1 with
          | ([], _) => none
          | (ds, rest) => some (e :: ds, rest)
      | [] => none
    else some ([], cs)
  | [] => some ([], [])

/-- Optional fraction part of a number followed by the optional exponent. -/
def scanFrac (cs : List Char) : Option (List Char × List Char) :=
  match cs with
  | d :: cs1 =>
    if d = '.' then
      match spanDigits cs1 with
      | ([], _) => none
      | (ds, rest) => (scanExp rest).map fun p => ('.' :: ds ++ p.1, p.2)
    else scanExp cs
  | [] => some ([], [])

/-- Integer part without sign: `0`, or a non-zero digit followed by digits. -/
def scanInt (cs : List Char) : Option (List Char × List Char) :=
  match cs with
  | d :: cs1 =>
    if d = '0' then some (['0'], cs1)
    else if isDigit d then some (d :: (spanDigits cs1).1, (spanDigits cs1).2)
    else none
  | [] => none

/-- Scan a JSON number. Returns its text and the input that follows. -/
def scanNum (cs : List Char) : Option (List Char × List Char) :=
  match cs with
  | c :: cs1 =>
    if c = '-' then
      match scanInt cs1 with
      | none => none
      | some (i, r) => (scanFrac r).map fun p => ('-' :: i ++ p.1, p.2)
    else
      match scanInt cs with
      | none => none
      | some (i, r) => (scanFrac r).map fun p => (i ++ p.1, p.2)
  | [] => none

/-- Scan a fixed literal (`true`, `false`, `null`). -/
def scanLit (lit : List Char) (cs : List Char) : Option (List Char × List Char) :=
  if lit.isPrefixOf cs then some (lit, cs.drop lit.length) else none

/-- What the scanner is reading: one value, the rest of an array after `[`, or
the rest of an object after `{`; both start at an element, whitespace skipped. -/
inductive Mode
  | value
  | elems
  | members
deriving DecidableEq

/-- Deepest nesting of arrays and objects the scanner accepts
(`maxNestingDepth` of `encoding/json`). -/
def maxNestingDepth : Nat := 10000

/-- Scan one JSON value (or the remaining elements of an array or object) at the
head of the input.  Returns the text read in compact form (whitespace between
tokens removed, HTML-sensitive characters escaped) and the rest of the input.
The first argument is fuel for the recursion.  The second is the number of
arrays and objects open around the text: the scanner fails with "exceeded max
depth" on a `{` or `[` that would open level `maxNestingDepth + 1`. -/
def scan : Nat → Nat → Mode → List Char → Option (List Char × List Char)
  | 0, _, _, _ => none
  | f + 1, depth, Mode.value, cs =>
    match cs with
    | [] => none
    | c :: cs1 =>
      if c = '"' then (scanStr cs1).map fun p => ('"' :: p.1, p.2)
      else if c = '{' then
        if maxNestingDepth ≤ depth then none
        else
          match skipSpace cs1 with
          | [] => none
          | d :: cs2 =>
            if d = '}' then some (['{', '}'], cs2)
            else (scan f (depth + 1) Mode.members (d :: cs2)).map fun p => ('{' :: p.1, p.2)
      else if c = '[' then
        if maxNestingDepth ≤ depth then none
        else
          match skipSpace cs1 with
          | [] => none
          | d :: cs2 =>
            if d = ']' then some (['[', ']'], cs2)
            else (scan f (depth + 1) Mode.elems (d :: cs2)).map fun p => ('[' :: p.1, p.2)
      else if c = 't' then scanLit ['t', 'r', 'u', 'e'] cs
      else if c = 'f' then scanLit ['f', 'a', 'l', 's', 'e'] cs
      else if c = 'n' then scanLit ['n', 'u', 'l', 'l'] cs
      else scanNum cs
  | f + 1, depth, Mode.elems, cs =>
    match scan f depth Mode.value cs with
    | none => none
    | some (v, rest) =>
      match skipSpace rest with
      | [] => none
      | d :: rest1 =>
        if d = ']' then some (v ++ [']'], rest1)
        else if d = ',' then
          (scan f depth Mode.elems (skipSpace rest1)).map fun p => (v ++ ',' :: p.1, p.2)
        else none
  | f + 1, depth, Mode.members, cs =>
    match cs with
    | [] => none
    | q :: cs1 =>
      if q = '"' then
        match scanStr cs1 with
        | none => none
        | some (k, r0) =>
          match skipSpace r0 with
          | [] => none
          | col :: r1 =>
            if col = ':' then
              match scan f depth Mode.value (skipSpace r1) with
              | none => none
              | some (v, rest) =>
                match skipSpace rest with
                | [] => none
                | d :: rest1 =>
                  if d = '}' then some ('"' :: k ++ ':' :: v ++ ['}'], rest1)
                  else if d = ',' then
                    (scan f depth Mode.members (skipSpace rest1)).map
                      fun p => ('"' :: k ++ ':' :: v ++ ',' :: p.1, p.2)
                  else none
            else none
      else none

/-- Run the scanner over a whole document that stands inside `depth` open
arrays and objects: optional whitespace, one value, optional whitespace, end of
input.  Returns the compact text. -/
def compactAt (depth : Nat) (cs : List Char) : Option (List Char) :=
  match scan (cs.length + 1) depth Mode.value (skipSpace cs) with
  | none => none
  | some (out, rest) => if skipSpace rest = [] then some out else none

/-- Compact text of a whole document (`json.Compact` with HTML escaping, as
`Marshal` applies it to a `json.RawMessage`); `none` is the syntax error, which
includes nesting deeper than `maxNestingDepth`. -/
def compact (cs : List Char) : Option (List Char) := compactAt 0 cs

/-- Well-formedness of a document, `json.Valid`. -/
def valid (cs : List Char) : Bool := (compact cs).isSome

/-! ## Decoding string and integer literals -/

/-- Code point of the four hex digits of a `\u` escape (`getu4`). -/
def hex4 (h1 h2 h3 h4 : Char) : Nat :=
  hexVal h1 * 4096 + hexVal h2 * 256 + hexVal h3 * 16 + hexVal h4

/-- The character a one-letter escape stands for. -/
def unescape (e : Char) : Char :=
  if e = 'b' then Char.ofNat 8
  else if e = 'f' then Char.ofNat 12
  else if e = 'n' then '\n'
  else if e = 'r' then '\r'
  else if e = 't' then '\t'
  else e

/-- Decode the body of a scanned string literal (between the quotes), as
`unquote` of `encoding/json` does: escapes are replaced, a high surrogate
followed by a low one is combined with it, and a surrogate without its partner
becomes U+FFFD.  The first argument is the high surrogate read just before, if
any. -/
def unquoteFrom (hi : Option Nat) : List Char → List Char
  | [] => if hi.isSome then [Char.ofNat 0xFFFD] else []
  | c :: cs =>
    if c = '\\' then
      match cs with
      | [] => if hi.isSome then [Char.ofNat 0xFFFD] else []
      | e :: cs1 =>
        if e = 'u' then
          match cs1 with
          | h1 :: h2 :: h3 :: h4 :: rest =>
            let r := hex4 h1 h2 h3 h4
            if hi.isSome && 0xDC00 ≤ r && r < 0xE000 then
              Char.ofNat ((hi.getD 0 - 0xD800) * 1024 + (r - 0xDC00) + 0x10000)
                :: unquoteFrom none rest
            else
              (if hi.isSome then [Char.ofNat 0xFFFD] else []) ++
                (if 0xD800 ≤ r && r < 0xDC00 then unquoteFrom (some r) rest
                 else if 0xDC00 ≤ r && r < 0xE000 then Char.ofNat 0xFFFD :: unquoteFrom none rest
                 else Char.ofNat r :: unquoteFrom none rest)
          | _ => if hi.isSome then [Char.ofNat 0xFFFD] else []
        else (if hi.isSome then [Char.ofNat 0xFFFD] else []) ++ unescape e :: unquoteFrom none cs1
    else (if hi.isSome then [Char.ofNat 0xFFFD] else []) ++ c :: unquoteFrom none cs

/-- Decode the body of a string literal from its beginning. -/
def unquote (body : List Char) : List Char := unquoteFrom none body

/-- Value of a run of decimal digits. -/
def digitsVal (ds : List Char) : Nat :=
  ds.foldl (fun acc d => 10 * acc + (d.toNat - 48)) 0

/-- Numeric value of a number literal stored into an `int` field:
`strconv.ParseInt(lit, 10, 64)`.  Fails on a fraction or exponent and when
the value does not fit 64 bits. -/
def parseInt (lit : List Char) : Option Int :=
  match lit with
  | [] => none
  | c :: cs =>
    if c = '-' then
      if cs ≠ [] ∧ cs.all isDigit ∧ digitsVal cs ≤ 2 ^ 63 then some (-(digitsVal cs : Int)) else none
    else
      if lit.all isDigit ∧ digitsVal lit < 2 ^ 63 then some (digitsVal lit : Int) else none

/-! ## Encoding a `Message` (`c.WriteJSON`, i.e. `json.Encoder.Encode`) -/

/-- How the encoder writes one character of a Go string inside a string
literal (HTML escaping on): `"` and `\` get a backslash; backspace, form feed,
line feed, carriage return and tab their letter; other control characters and
the HTML-sensitive characters a `\u` escape.  (Go releases before 1.22 wrote
backspace and form feed as `\u0008` and `\u000c`; both forms decode to the same
character.) -/
def escapeChar (c : Char) : List Char :=
  if c = '"' then ['\\', '"']
  else if c = '\\' then ['\\', '\\']
  else if c = Char.ofNat 8 then ['\\', 'b']
  else if c = Char.ofNat 12 then ['\\', 'f']
  else if c = '\n' then ['\\', 'n']
  else if c = '\r' then ['\\', 'r']
  else if c = '\t' then ['\\', 't']
  else if c.toNat < 32 || isHTML c then uEscape c.toNat
  else [c]

/-- The characters of a Go string as they stand inside a string literal. -/
def escape : List Char → List Char
  | [] => []
  | c :: cs => escapeChar c ++ escape cs

/-- JSON string literal of a Go string. -/
def quote (s : String) : List Char := '"' :: escape s.data ++ ['"']

/-- The members `Marshal` writes for a `Message`, in declaration order, each
with the text of its value.  The tag `omitempty` drops `ip`, `uid`, `code` and
`result` when the field holds its zero value; a non-empty `Result` is copied
through `compact`, so it must be well-formed. -/
def encodeFields (m : Message) : Option (List (String × List Char)) :=
  let fixed := [("type", quote m.Type_), ("sid", quote m.Sid), ("action", quote m.Action)]
  let ip := if m.IP = "" then [] else [("ip", quote m.IP)]
  let uid := if m.UID = "" then [] else [("uid", quote m.UID)]
  let code := if m.Code = 0 then [] else [("code", (formatInt m.Code).data)]
  if m.Result = "" then some (fixed ++ ip ++ uid ++ code)
  else
    match compact m.Result.data with
    | none => none
    | some r => some (fixed ++ ip ++ uid ++ code ++ [("result", r)])

/-- Members separated by commas, each as `"key":value`. -/
def renderFields : List (String × List Char) → List Char
  | [] => []
  | [kv] => quote kv.1 ++ ':' :: kv.2
  | kv :: rest => quote kv.1 ++ ':' :: kv.2 ++ ',' :: renderFields rest

/-- Text of `json.Marshal(m)`; `none` when `Result` is not well-formed JSON. -/
def marshal (m : Message) : Option (List Char) :=
  (encodeFields m).map fun fs => '{' :: renderFields fs ++ ['}']

/-- The frame `c.WriteJSON(m)` sends: `Encoder.Encode` ends the document with a
line feed. -/
def encode (m : Message) : Option String :=
  (marshal m).map fun t => String.mk (t ++ ['\n'])

/-! ## Decoding a `Message` (`json.Unmarshal`) -/

/-- The part of `cs` in front of its suffix `rest`. -/
def consumed (cs rest : List Char) : List Char := cs.take (cs.length - rest.length)

/-- Read the members of the outermost object, the input standing at the first
key. Returns each decoded key with the raw text of its value, and the input
after `}`.  The first argument is fuel for the recursion; the values stand one
level deep. -/
def objMembers : Nat → List Char → Option (List (List Char × List Char) × List Char)
  | 0, _ => none
  | f + 1, cs =>
    match cs with
    | [] => none
    | q :: cs1 =>
      if q = '"' then
        match scanStr cs1 with
        | none => none
        | some (_, r0) =>
          match skipSpace r0 with
          | [] => none
          | col :: r1 =>
            if col = ':' then
              match scan f 1 Mode.value (skipSpace r1) with
              | none => none
              | some (_, rest) =>
                match skipSpace rest with
                | [] => none
                | d :: rest1 =>
                  if d = '}' then
                    some ([(unquote (consumed cs1 r0).dropLast, consumed (skipSpace r1) rest)], rest1)
                  else if d = ',' then
                    (objMembers f (skipSpace rest1)).map fun p =>
                      ((unquote (consumed cs1 r0).dropLast, consumed (skipSpace r1) rest) :: p.1, p.2)
                  else none
            else none
      else none

/-- Case folding used to match a key against a field name when no name is equal
to it: ASCII letters, and the two letters outside ASCII that fold to `s` and `k`. -/
def foldChar (c : Char) : Char :=
  if 'A' ≤ c && c ≤ 'Z' then Char.ofNat (c.toNat + 32)
  else if c.toNat = 0x17F then 's'
  else if c.toNat = 0x212A then 'k'
  else c

/-- Store a string literal into a string field: `null` leaves the field as it
is, any other kind of value is a type error. -/
def stringValue (old : String) (raw : List Char) : Option String :=
  match raw with
  | [] => none
  | c :: cs =>
    if c = '"' then some (String.mk (unquote cs.dropLast))
    else if c = 'n' then some old
    else none

/-- Store a number literal into the `int` field `Code`. -/
def intValue (old : Int) (raw : List Char) : Option Int :=
  match raw with
  | [] => none
  | c :: _ =>
    if c = 'n' then some old
    else if c = '-' || isDigit c then parseInt raw
    else none

/-- Assign one member to the field whose tag name matches its key; a key that
matches no field is skipped. -/
def setField (m : Message) (kv : List Char × List Char) : Option Message :=
  let name := String.mk (kv.1.map foldChar)
  if name = "type" then (stringValue m.Type_ kv.2).map fun v => { m with Type_ := v }
  else if name = "sid" then (stringValue m.Sid kv.2).map fun v => { m with Sid := v }
  else if name = "action" then (stringValue m.Action kv.2).map fun v => { m with Action := v }
  else if name = "ip" then (stringValue m.IP kv.2).map fun v => { m with IP := v }
  else if name = "uid" then (stringValue m.UID kv.2).map fun v => { m with UID := v }
  else if name = "code" then (intValue m.Code kv.2).map fun v => { m with Code := v }
  else if name = "result" then some { m with Result := String.mk kv.2 }
  else some m

/-- Assign the members in the order they were read; the first error ends the
decoding (the caller throws the Message away on any error). -/
def setFields : Message → List (List Char × List Char) → Option Message
  | m, [] => some m
  | m, kv :: rest =>
    match setField m kv with
    | none => none
    | some m1 => setFields m1 rest

/-- The call `json.Unmarshal(frame, &data)` with `data` a fresh `Message`:
the decoded `Message`, or `none` for any error (syntax error, or a value of the
wrong kind for a field).  An object fills the fields member by member, `null`
leaves the zero `Message`, any other document is a type error. -/
def unmarshal (frame : String) : Option Message :=
  if valid frame.data then
    match skipSpace frame.data with
    | [] => none
    | c :: cs =>
      if c = '{' then
        match skipSpace cs with
        | [] => none
        | d :: cs1 =>
          if d = '}' then some {}
          else
            match objMembers (cs.length + 1) (d :: cs1) with
            | none => none
            | some (kvs, _) => setFields {} kvs
      else if c = 'n' then some {}
      else none
  else none

/-! ## Handlers (lines 86-185) -/

/-- The `fmt.Printf` sites of `main.go`, without the timestamp. -/
inductive LogLine
  | connectFailed (err : String)
  | connected
  | disconnected (err : String)
  | parseFailed
  | pinging (ip uid : String)
  | pingInitFailed (err : String)
  | pingFailed (err : String)
  | pingDone (uid ip result : String)
  | buildRequestFailed (err : String)
  | requestFailed (err : String)
  | readBodyFailed (err : String)
  | infoDone (uid : String)
deriving DecidableEq

/-- What a handler does to the outside: a log line, or `c.WriteJSON(m)`. -/
inductive Effect
  | log (l : LogLine)
  | writeJSON (m : Message)
deriving DecidableEq

/-- The Messages a run of effects hands to `c.WriteJSON`, in order. -/
def writes : List Effect → List Message
  | [] => []
  | Effect.writeJSON m :: es => m :: writes es
  | Effect.log _ :: es => writes es

/-- The fields of `ping.Pinger` that `handlePing` sets. -/
structure Pinger where
  addr : String
  Size : Int
  Count : Int
  privileged : Bool
deriving DecidableEq

/-- The field of `ping.Statistics` that `handlePing` reads. -/
structure Statistics where
  AvgRtt : Int
deriving DecidableEq

/-- The calls into `github.com/go-ping/ping`.  `NewPinger` returns the pinger it
built together with the error of resolving the address (`p := New(addr);
return p, p.Resolve()`), so the pinger is there also when the error is set and
lines 92-96, which touch it before the error is looked at, go through; `Run`
returns its error together with what `Statistics()` reports afterwards. -/
structure PingLib where
  NewPinger : String → Pinger × Option String
  Run : Pinger → Option String × Statistics

/-- The method `Pinger.SetPrivileged`. -/
def SetPrivileged (p : Pinger) (b : Bool) : Pinger := { p with privileged := b }

/-- The method `Duration.Milliseconds`: whole milliseconds, rounded toward zero. -/
def Milliseconds (d : Int) : Int := Int.tdiv d 1000000

/-- The payload `fmt.Sprintf("\x7b\"error\": \"%s\"\x7d", err.Error())` of the
failure responses (lines 106, 121, 164): the message is pasted between the
quotes as it is. -/
def errorResult (err : String) : String :=
  "\x7b\"error\": \"" ++ err ++ "\"\x7d"

/-- Lines 91-96: privileged mode on Windows only, payload size 548. -/
def prepare (goos : String) (p : Pinger) : Pinger :=
  let p := if goos = "windows" then SetPrivileged p true else p
  { p with Size := 548 }

/-- The function `handlePing` (lines 86-142). `goos` is `runtime.GOOS`. -/
def handlePing (lib : PingLib) (goos : String) (data : Message) (sid : String) : List Effect :=
  let started := Effect.log (LogLine.pinging data.IP data.UID)
  let made := lib.NewPinger data.IP
  let pinger := prepare goos made.1
  match made.2 with
  | some err =>
    [started, Effect.log (LogLine.pingInitFailed err),
      Effect.writeJSON
        { Type_ := "node", Sid := sid, Code := 500, UID := data.UID, Action := "ping",
          Result := errorResult err }]
  | none =>
    let pinger := { pinger with Count := 3 }
    let ran := lib.Run pinger
    match ran.1 with
    | some err =>
      [started, Effect.log (LogLine.pingFailed err),
        Effect.writeJSON
          { Type_ := "node", Sid := sid, Code := 500, UID := data.UID, Action := "ping",
            Result := errorResult err }]
    | none =>
      let stats := ran.2
      let result := formatInt (Milliseconds stats.AvgRtt) ++ "ms"
      [started, Effect.log (LogLine.pingDone data.UID data.IP result),
        Effect.writeJSON
          { Type_ := "node", Sid := sid, Code := 200, UID := data.UID, Action := "ping",
            Result := "\"" ++ result ++ "\"" }]

/-- An `http.Request` as far as `handleInfo` touches it. -/
structure Request where
  method : String
  url : String
  header : List (String × String)
deriving DecidableEq

/-- The method `Header.Set`: the value replaces any earlier one for the key. -/
def setHeader (h : List (String × String)) (k v : String) : List (String × String) :=
  h.filter (fun kv => kv.1 ≠ k) ++ [(k, v)]

/-- The calls into `net/http`, `encoding/base64` and `io/ioutil`. `Do` takes the
client's timeout and the request; when it succeeds it yields the response,
given here by what `ioutil.ReadAll(resp.Body)` returns for it. -/
structure HttpLib where
  NewRequest : String → String → Except String Request
  EncodeToString : String → String
  Do : Nat → Request → Except String (Except String String)

/-- Lines 152-153: the request with the Basic credentials set. -/
def authorize (lib : HttpLib) (req : Request) : Request :=
  let auth := lib.EncodeToString (authUsername ++ ":" ++ authPassword)
  { req with header := setHeader req.header "Authorization" ("Basic " ++ auth) }

/-- The function `handleInfo` (lines 144-185). -/
def handleInfo (lib : HttpLib) (data : Message) (sid : String) : List Effect :=
  match lib.NewRequest "GET" serverInfoEndpoint with
  | Except.error err => [Effect.log (LogLine.buildRequestFailed err)]
  | Except.ok req =>
    match lib.Do timeoutDuration (authorize lib req) with
    | Except.error err =>
      [Effect.log (LogLine.requestFailed err),
        Effect.writeJSON
          { Type_ := "node", Sid := sid, Code := 500, UID := data.UID, Action := "info",
            Result := errorResult err }]
    | Except.ok resp =>
      match resp with
      | Except.error err => [Effect.log (LogLine.readBodyFailed err)]
      | Except.ok body =>
        [Effect.log (LogLine.infoDone data.UID),
          Effect.writeJSON
            { Type_ := "node", Sid := sid, Code := 200, UID := data.UID, Action := "info",
              Result := body }]

/-! ## `connectWebSocket` (lines 37-84) as a transition system

The supervisor loop and the receive loop run in the calling goroutine; the
heartbeat and every handler run in goroutines of their own.  A state records
where the calling goroutine stands, which goroutines are alive, and everything
done so far.  An input is one thing that happens next: a blocking call of the
calling goroutine returns, or another goroutine gets to run. -/

/-- A goroutine started by `connectWebSocket`, bound to the connection `c` it
was given (connections are numbered in the order they were opened). -/
inductive Task
  | heartbeat (c : Nat)
  | ping (c : Nat) (data : Message)
  | info (c : Nat) (data : Message)
deriving DecidableEq

/-- Something the program did. -/
inductive Event
  | dial (url : String)
  | sleep (d : Nat)
  | log (l : LogLine)
  | write (c : Nat) (m : Message)
  | go (t : Task)
  | heartbeatSleep (c : Nat) (d : Nat)
deriving DecidableEq

/-- Where the calling goroutine is blocked: in `Dial` (line 39), in
`time.Sleep(reconnectInterval)` (line 42), or in `c.ReadMessage` (line 64). -/
inductive Main
  | dialing
  | sleeping
  | reading (c : Nat)
deriving DecidableEq

/-- State of a running `connectWebSocket`: where the calling goroutine stands,
how many connections were opened, the goroutines alive beside it, and what the
program has done so far, oldest first. -/
structure State where
  main : Main
  conns : Nat
  tasks : List Task
  trace : List Event
deriving DecidableEq

/-- What happens next: `Dial` returns (with an error or not), the supervisor's
sleep ends, `ReadMessage` returns, the heartbeat goroutine at position `i` of
`tasks` runs one turn of its loop, or the handler goroutine at position `i`
runs to its end with the given library behaviour. -/
inductive Input
  | dialed (err : Option String)
  | woke
  | received (r : Except String String)
  | beat (i : Nat)
  | pingRuns (i : Nat) (lib : PingLib)
  | infoRuns (i : Nat) (lib : HttpLib)

/-- State on entry to `connectWebSocket`: the first `Dial` is under way. -/
def start : State :=
  { main := Main.dialing, conns := 0, tasks := [], trace := [Event.dial webSocketURL] }

/-- The heartbeat Message of line 58. -/
def heartbeatMessage (sidStr : String) : Message :=
  { Type_ := "node", Code := 200, Sid := sidStr, Action := "head" }

/-- The initialization Message of line 53. -/
def initMessage (sidStr : String) : Message :=
  { Type_ := "node", Sid := sidStr }

/-- The `switch data.Action` of lines 76-81: the goroutine started for a
decoded Message, if any. -/
def dispatch (c : Nat) (data : Message) : Option Task :=
  if data.Action = "ping" then some (Task.ping c data)
  else if data.Action = "info" then some (Task.info c data)
  else none

/-- One pass of the receive loop body (lines 70-81) for a frame that was read. -/
def onFrame (c : Nat) (frame : String) : List Event × List Task :=
  match unmarshal frame with
  | none => ([Event.log LogLine.parseFailed], [])
  | some data =>
    match dispatch c data with
    | none => ([], [])
    | some t => ([Event.go t], [t])

/-- What a handler does, as an event on the connection it was given. -/
def effectEvent (c : Nat) : Effect → Event
  | Effect.log l => Event.log l
  | Effect.writeJSON m => Event.write c m

/-- One transition of the program started as `connectWebSocket(sid)` with
`runtime.GOOS = goos`; `none` when the input cannot happen in the state. -/
def step (sid : Int) (goos : String) (s : State) : Input → Option State
  | Input.dialed (some err) =>
    match s.main with
    | Main.dialing =>
      some { s with
        main := Main.sleeping
        trace := s.trace ++ [Event.log (LogLine.connectFailed err), Event.sleep reconnectInterval] }
    | _ => none
  | Input.woke =>
    match s.main with
    | Main.sleeping =>
      some { s with main := Main.dialing, trace := s.trace ++ [Event.dial webSocketURL] }
    | _ => none
  | Input.dialed none =>
    match s.main with
    | Main.dialing =>
      some { main := Main.reading s.conns
             conns := s.conns + 1
             tasks := s.tasks ++ [Task.heartbeat s.conns]
             trace := s.trace ++
               [Event.log LogLine.connected,
                Event.write s.conns (initMessage (formatInt sid)),
                Event.go (Task.heartbeat s.conns)] }
    | _ => none
  | Input.received (Except.error err) =>
    match s.main with
    | Main.reading _ =>
      some { s with
        main := Main.dialing
        trace := s.trace ++ [Event.log (LogLine.disconnected err), Event.dial webSocketURL] }
    | _ => none
  | Input.received (Except.ok frame) =>
    match s.main with
    | Main.reading c =>
      some { s with
        tasks := s.tasks ++ (onFrame c frame).2
        trace := s.trace ++ (onFrame c frame).1 }
    | _ => none
  | Input.beat i =>
    match s.tasks.get? i with
    | some (Task.heartbeat c) =>
      some { s with
        trace := s.trace ++
          [Event.write c (heartbeatMessage (formatInt sid)), Event.heartbeatSleep c heartbeatInterval] }
    | _ => none
  | Input.pingRuns i lib =>
    match s.tasks.get? i with
    | some (Task.ping c data) =>
      some { s with
        tasks := s.tasks.eraseIdx i
        trace := s.trace ++ (handlePing lib goos data (formatInt sid)).map (effectEvent c) }
    | _ => none
  | Input.infoRuns i lib =>
    match s.tasks.get? i with
    | some (Task.info c data) =>
      some { s with
        tasks := s.tasks.eraseIdx i
        trace := s.trace ++ (handleInfo lib data (formatInt sid)).map (effectEvent c) }
    | _ => none

/-- Feed a sequence of inputs. -/
def run (sid : Int) (goos : String) : State → List Input → Option State
  | s, [] => some s
  | s, i :: is =>
    match step sid goos s i with
    | none => none
    | some s1 => run sid goos s1 is

/-! ## Sample inputs and the notions the properties are stated with -/

/-- A ping request as the server sends it, decoded. -/
def samplePing : Message := { Action := "ping", IP := "192.0.2.1", UID := "u-17" }

/-- An info request, decoded. -/
def sampleInfo : Message := { Action := "info", UID := "u-18" }

/-- A probe library whose calls all succeed, with the given average round trip. -/
def pingOk (avg : Int) : PingLib :=
  { NewPinger := fun a => ({ addr := a, Size := 24, Count := -1, privileged := false }, none)
    Run := fun _ => (none, { AvgRtt := avg }) }

/-- An HTTP library whose calls all succeed, whose body is the given text. -/
def httpOk (body : String) : HttpLib :=
  { NewRequest := fun m u => Except.ok { method := m, url := u, header := [] }
    EncodeToString := fun _ => "YWRtaW46U1FNTA=="
    Do := fun _ _ => Except.ok (Except.ok body) }

/-- An HTTP library whose exchange fails with the given error. -/
def httpDown (err : String) : HttpLib :=
  { httpOk "" with Do := fun _ _ => Except.error err }

/-- The message of the error `client.Do` returns while nothing listens on the
endpoint: a `*url.Error`, which quotes the URL. -/
def refused : String :=
  "Get \"http://127.0.0.1:37549/api/serverinfo\": dial tcp 127.0.0.1:37549: connect: connection refused"

/-- The message of the error `client.Do` returns when the endpoint accepts the
connection and does not answer within `timeoutDuration`: again a `*url.Error`
with the URL in quotes. -/
def timedOut : String :=
  "Get \"http://127.0.0.1:37549/api/serverinfo\": context deadline exceeded (Client.Timeout exceeded while awaiting headers)"

/-- The input that follows a number must not continue it. -/
def stops (rest : List Char) : Prop :=
  ∀ c t, rest = c :: t → isDigit c = false ∧ c ≠ '.' ∧ c ≠ 'e' ∧ c ≠ 'E'

/-- The text does not begin with a digit. -/
def nondigitHead (l : List Char) : Prop := ∀ c t, l = c :: t → isDigit c = false

/-- A character that can begin a value: it is no whitespace and closes nothing. -/
def opens (c : Char) : Prop := isSpace c = false ∧ c ≠ '}' ∧ c ≠ ']'

/-- Text that the scanner reads as one value of a member of the outermost
object (one level deep), whatever follows it after a closing bracket or a
comma. -/
def Rescans (v : List Char) : Prop :=
  (∃ c t, v = c :: t ∧ opens c) ∧
  ∀ (g : Nat) (rest1 : List Char), v.length < g → stops rest1 →
    scan g 1 Mode.value (v ++ rest1) = some (v, rest1)

/-- The form in which the encoder writes a `Result`: the compact text of a
well-formed value, nothing for a value that is empty. -/
def compactResult (r : String) : String :=
  match compact r.data with
  | some t => String.mk t
  | none => ""

/-- A `Result` that can travel in a frame: well-formed JSON that the scanner
still accepts one level down, inside the object of the Message, that is, with
arrays and objects nested at most `maxNestingDepth - 1` deep. -/
def fitsFrame (r : String) : Bool := (compactAt 1 r.data).isSome

/-- The keys `encodeFields` writes. -/
def keysOf (fs : List (String × List Char)) : List String := fs.map Prod.fst

/-- A member as the decoder sees it: the key as characters, the raw value. -/
def asMember (x : String × List Char) : List Char × List Char := (x.1.data, x.2)

/-- The members of a `Message` that come before `result`. -/
def headFields (ty sid act ip uid : String) (code : Int) : List (String × List Char) :=
  [("type", quote ty), ("sid", quote sid), ("action", quote act)] ++
    (if ip = "" then [] else [("ip", quote ip)]) ++
    (if uid = "" then [] else [("uid", quote uid)]) ++
    (if code = 0 then [] else [("code", (formatInt code).data)])

/-- The response `handleInfo` builds when the exchange fails with `timeout`. -/
def timeoutResponse : Message :=
  { Type_ := "node", Sid := "7", Action := "info", UID := "u-18", Code := 500,
    Result := errorResult "timeout" }

/-- The response `handleInfo` builds while nothing listens on the endpoint. -/
def refusedResponse : Message :=
  { Type_ := "node", Sid := "7", Action := "info", UID := "u-18", Code := 500,
    Result := errorResult refused }

/-- The response `handleInfo` builds when the endpoint does not answer in time. -/
def timedOutResponse : Message :=
  { Type_ := "node", Sid := "7", Action := "info", UID := "u-18", Code := 500,
    Result := errorResult timedOut }

/-- A probe library whose `NewPinger` fails to resolve the address. -/
def pingUnresolved (err : String) : PingLib :=
  { (pingOk 0) with NewPinger := fun a => ({ addr := a, Size := 24, Count := -1, privileged := false }, some err) }

/-- Text of a JSON object with the given members, written the way the encoder
writes one: no blanks, each key as a string literal, each value as given. -/
def objectText (fs : List (String × List Char)) : String :=
  String.mk ('{' :: (renderFields fs ++ ['}']))

/-- The members of the object an input holds, as `json.Unmarshal` reads them
before it assigns any field: each key decoded, each value as raw text, in the
order of the input.  `null` and the empty object hold none; an input that is
not well-formed, or holds another kind of value, has none to give. -/
def members (frame : String) : Option (List (List Char × List Char)) :=
  if valid frame.data then
    match skipSpace frame.data with
    | [] => none
    | c :: cs =>
      if c = '{' then
        match skipSpace cs with
        | [] => none
        | d :: cs1 =>
          if d = '}' then some []
          else (objMembers (cs.length + 1) (d :: cs1)).map Prod.fst
      else if c = 'n' then some []
      else none
  else none

/-- A value as it stands in such a text: well-formed JSON in compact form, that
is, text the scanner accepts one level down and copies unchanged. -/
def isCompactValue (v : List Char) : Bool := compactAt 1 v = some v

/-- Arrays inside one another, `k` of them, the innermost empty. -/
def nested (k : Nat) : List Char := List.replicate k '[' ++ List.replicate k ']'

/-- A Message whose `Result` is nested as deep as the scanner allows. -/
def deepest : Message := { Result := String.mk (nested maxNestingDepth) }

/-- The frame of a Message with nothing but the given `Result`. -/
def bareFrame (r : List Char) : String :=
  String.mk ('{' :: renderFields (headFields "" "" "" "" "" 0 ++ [("result", r)]) ++ ['}'] ++ ['\n'])

/-- The goroutine an event starts, if it starts one. -/
def started : Event → Option Task
  | Event.go t => some t
  | _ => none

/-- The handler the receive loop has to start for a frame on connection `c`. -/
def handlerFor (c : Nat) (frame : String) : Option Task :=
  match unmarshal frame with
  | none => none
  | some data =>
    if data.Action = "ping" then some (Task.ping c data)
    else if data.Action = "info" then some (Task.info c data)
    else none

/-- State right after the first connection was opened by `connectWebSocket(7)`. -/
def connected7 : State :=
  { main := Main.reading 0, conns := 1, tasks := [Task.heartbeat 0],
    trace := [Event.dial webSocketURL, Event.log LogLine.connected,
      Event.write 0 (initMessage "7"), Event.go (Task.heartbeat 0)] }

/-- Four frames: not JSON, a heartbeat acknowledgement, a ping request, an
object without action. -/
def sampleFrames : List String :=
  ["\x7b\"action\":", "\x7b\"type\":\"server\",\"action\":\"head\"\x7d",
   "\x7b\"action\":\"ping\",\"ip\":\"192.0.2.1\",\"uid\":\"u-17\"\x7d", "\x7b\x7d"]

/-- The inputs of `N` connection attempts that fail, each followed by the end of
the sleep. -/
def failures (errs : List String) : List Input :=
  errs.flatMap fun err => [Input.dialed (some err), Input.woke]

/-- The event is a call of `Dial`. -/
def isDial : Event → Bool
  | Event.dial _ => true
  | _ => false

/-- The event is a sleep of the supervisor. -/
def isSleep : Event → Bool
  | Event.sleep _ => true
  | _ => false

/-- The goroutine is a heartbeat loop. -/
def isHeartbeat : Task → Bool
  | Task.heartbeat _ => true
  | _ => false

/-- The heartbeat goroutines alive in a state. -/
def liveHeartbeats (s : State) : List Task := s.tasks.filter isHeartbeat

/-- One heartbeat goroutine per connection ever opened. -/
def HeartbeatInv (s : State) : Prop :=
  liveHeartbeats s = (List.range s.conns).map Task.heartbeat

/-! # Proofs -/

/-! ## Decimal digits -/

theorem toDigitsCore_fuel (n : Nat) : ∀ (f g : Nat) (acc : List Char), n < f → n < g →
    Nat.toDigitsCore 10 f n acc = Nat.toDigitsCore 10 g n acc := by
  induction n using Nat.strong_induction_on with
  | _ n ih =>
    intro f g acc hf hg
    cases f with
    | zero => omega
    | succ f =>
      cases g with
      | zero => omega
      | succ g =>
        simp only [Nat.toDigitsCore]
        by_cases h : n / 10 = 0
        · simp [h]
        · simp only [h, if_false]
          have hlt : n / 10 < n := Nat.div_lt_self (by omega) (by decide)
          exact ih (n / 10) hlt f g _ (by omega) (by omega)

theorem toDigitsCore_acc (f : Nat) : ∀ (n : Nat) (acc : List Char),
    Nat.toDigitsCore 10 f n acc = Nat.toDigitsCore 10 f n [] ++ acc := by
  induction f with
  | zero => intro n acc; simp [Nat.toDigitsCore]
  | succ f ih =>
    intro n acc
    simp only [Nat.toDigitsCore]
    by_cases h : n / 10 = 0
    · simp [h]
    · simp only [h, if_false]
      rw [ih (n / 10) (_ :: acc), ih (n / 10) [_]]
      simp

theorem toDigits_small (n : Nat) (h : n < 10) : Nat.toDigits 10 n = [Nat.digitChar n] := by
  have h0 : n / 10 = 0 := Nat.div_eq_of_lt h
  have h1 : n % 10 = n := Nat.mod_eq_of_lt h
  simp [Nat.toDigits, Nat.toDigitsCore, h0, h1]

theorem toDigits_large (n : Nat) (h : 10 ≤ n) :
    Nat.toDigits 10 n = Nat.toDigits 10 (n / 10) ++ [Nat.digitChar (n % 10)] := by
  have h0 : n / 10 ≠ 0 := by omega
  have hlt : n / 10 < n := Nat.div_lt_self (by omega) (by decide)
  calc Nat.toDigits 10 n
      = Nat.toDigitsCore 10 (n + 1) n [] := rfl
    _ = Nat.toDigitsCore 10 n (n / 10) [Nat.digitChar (n % 10)] := by
        simp [Nat.toDigitsCore, h0]
    _ = Nat.toDigitsCore 10 n (n / 10) [] ++ [Nat.digitChar (n % 10)] := toDigitsCore_acc _ _ _
    _ = Nat.toDigitsCore 10 (n / 10 + 1) (n / 10) [] ++ [Nat.digitChar (n % 10)] := by
        rw [toDigitsCore_fuel (n / 10) n (n / 10 + 1) [] hlt (by omega)]
    _ = Nat.toDigits 10 (n / 10) ++ [Nat.digitChar (n % 10)] := rfl

theorem isDigit_digitChar (k : Nat) (h : k < 10) : isDigit (Nat.digitChar k) = true := by
  interval_cases k <;> decide

theorem toDigits_isDigit (n : Nat) : ∀ c ∈ Nat.toDigits 10 n, isDigit c = true := by
  induction n using Nat.strong_induction_on with
  | _ n ih =>
    by_cases h : n < 10
    · rw [toDigits_small n h]
      intro c hc
      simp only [List.mem_singleton] at hc
      subst hc
      exact isDigit_digitChar n h
    · rw [toDigits_large n (by omega)]
      intro c hc
      rcases List.mem_append.mp hc with hc | hc
      · exact ih (n / 10) (Nat.div_lt_self (by omega) (by decide)) c hc
      · simp only [List.mem_singleton] at hc
        subst hc
        exact isDigit_digitChar _ (Nat.mod_lt _ (by decide))

theorem toDigits_ne_nil (n : Nat) : Nat.toDigits 10 n ≠ [] := by
  by_cases h : n < 10
  · rw [toDigits_small n h]; simp
  · rw [toDigits_large n (by omega)]; simp

/-! ## Handlers: one response per request (C1, C2) -/

theorem Milliseconds_nonneg (d : Int) (h : 0 ≤ d) :
    Milliseconds d = ((d.toNat / 1000000 : Nat) : Int) := by
  obtain ⟨k, rfl⟩ := Int.eq_ofNat_of_zero_le h
  simp [Milliseconds, Int.tdiv]

theorem formatInt_ofNat (k : Nat) : formatInt (k : Int) = Nat.repr k := by
  simp [formatInt]

/-- C1. `handlePing` hands exactly one Message to `c.WriteJSON`, whatever the
probe does; the Message has type `node`, the given sid, action `ping` and the
request's uid; its code is 500 when `NewPinger` or `Run` reports an error and
200 otherwise, and on success with a non-negative average round trip the result
is the JSON string of that time in whole milliseconds followed by `ms`, a
non-empty run of decimal digits. -/
theorem handlePing_one_response (lib : PingLib) (goos : String) (data : Message) (sid : String) :
    ∃ m : Message, writes (handlePing lib goos data sid) = [m] ∧
      m.Type_ = "node" ∧ m.Sid = sid ∧ m.Action = "ping" ∧ m.UID = data.UID ∧
      (m.Code = 200 ∨ m.Code = 500) ∧
      (∀ err, (lib.NewPinger data.IP).2 = some err → m.Code = 500) ∧
      (∀ err, (lib.NewPinger data.IP).2 = none →
        (lib.Run { prepare goos (lib.NewPinger data.IP).1 with Count := 3 }).1 = some err →
        m.Code = 500) ∧
      ((lib.NewPinger data.IP).2 = none →
        (lib.Run { prepare goos (lib.NewPinger data.IP).1 with Count := 3 }).1 = none →
        m.Code = 200 ∧
        (0 ≤ (lib.Run { prepare goos (lib.NewPinger data.IP).1 with Count := 3 }).2.AvgRtt →
          ∃ n : Nat,
            n = ((lib.Run { prepare goos (lib.NewPinger data.IP).1 with Count := 3 }).2.AvgRtt).toNat
              / 1000000 ∧
            m.Result = "\"" ++ (Nat.repr n ++ "ms") ++ "\"" ∧
            (Nat.repr n).data ≠ [] ∧ ∀ c ∈ (Nat.repr n).data, isDigit c = true)) := by
  cases h1 : (lib.NewPinger data.IP).2 with
  | some err => simp [handlePing, h1, writes]
  | none =>
    cases h2 : (lib.Run { prepare goos (lib.NewPinger data.IP).1 with Count := 3 }).1 with
    | some err => simp [handlePing, h1, h2, writes]
    | none =>
      simp only [handlePing, h1, h2, writes]
      refine ⟨_, rfl, rfl, rfl, rfl, rfl, Or.inl rfl, ?_, ?_, ?_⟩
      · intro err h; cases h
      · intro err _ h; cases h
      · intro _ _
        refine ⟨rfl, fun hpos => ⟨_, rfl, ?_, ?_, ?_⟩⟩
        · simp only [Milliseconds_nonneg _ hpos, formatInt_ofNat]
        · exact toDigits_ne_nil _
        · exact toDigits_isDigit _

theorem handlePing_one_response_witness :
    ∃ m : Message, writes (handlePing (pingOk 12345678) "linux" samplePing "7") = [m] ∧
      m.UID = "u-17" ∧ m.Code = 200 ∧ m.Result = "\"12ms\"" := by
  obtain ⟨m, hw, _, _, _, huid, _, _, _, hok⟩ :=
    handlePing_one_response (pingOk 12345678) "linux" samplePing "7"
  obtain ⟨hcode, hres⟩ := hok rfl rfl
  obtain ⟨n, hn, hr, _, _⟩ := hres (by decide)
  refine ⟨m, hw, huid, hcode, ?_⟩
  rw [hr, hn]
  decide

/-- C2. Once the request is built, `handleInfo` hands exactly one Message with
action `info` and the request's uid to `c.WriteJSON` when the exchange fails
(code 500) and when it succeeds and the body is read (code 200, `Result` equal
to the body as it is, for every body). -/
theorem handleInfo_one_response (lib : HttpLib) (data : Message) (sid : String) (req : Request)
    (hreq : lib.NewRequest "GET" serverInfoEndpoint = Except.ok req) :
    (∀ err, lib.Do timeoutDuration (authorize lib req) = Except.error err →
      ∃ m : Message, writes (handleInfo lib data sid) = [m] ∧
        m.Action = "info" ∧ m.UID = data.UID ∧ m.Code = 500) ∧
    (∀ body, lib.Do timeoutDuration (authorize lib req) = Except.ok (Except.ok body) →
      ∃ m : Message, writes (handleInfo lib data sid) = [m] ∧
        m.Action = "info" ∧ m.UID = data.UID ∧ m.Code = 200 ∧ m.Result = body) := by
  constructor
  · intro err h
    simp [handleInfo, hreq, h, writes]
  · intro body h
    simp [handleInfo, hreq, h, writes]

theorem handleInfo_one_response_witness :
    (∃ m : Message, writes (handleInfo (httpDown refused) sampleInfo "7") = [m] ∧
        m.Action = "info" ∧ m.UID = "u-18" ∧ m.Code = 500) ∧
    (∃ m : Message, writes (handleInfo (httpOk "not json") sampleInfo "7") = [m] ∧
        m.Action = "info" ∧ m.UID = "u-18" ∧ m.Code = 200 ∧ m.Result = "not json") ∧
    (∃ m : Message, writes (handleInfo (httpOk "") sampleInfo "7") = [m] ∧
        m.Action = "info" ∧ m.UID = "u-18" ∧ m.Code = 200 ∧ m.Result = "") :=
  ⟨(handleInfo_one_response (httpDown refused) sampleInfo "7" _ rfl).1 refused rfl,
   (handleInfo_one_response (httpOk "not json") sampleInfo "7" _ rfl).2 "not json" rfl,
   (handleInfo_one_response (httpOk "") sampleInfo "7" _ rfl).2 "" rfl⟩

/-! ## String literals: what the encoder writes, the scanner reads back -/

theorem scanStr_quote (cs : List Char) : scanStr ('"' :: cs) = some (['"'], cs) := by
  rw [scanStr.eq_def]
  simp

theorem scanStr_u (h1 h2 h3 h4 : Char) (rest : List Char)
    (hh : (isHex h1 && isHex h2 && isHex h3 && isHex h4) = true) :
    scanStr ('\\' :: 'u' :: h1 :: h2 :: h3 :: h4 :: rest) =
      (scanStr rest).map fun p => ('\\' :: 'u' :: h1 :: h2 :: h3 :: h4 :: p.1, p.2) := by
  rw [scanStr.eq_def]
  simp [hh]

theorem scanStr_esc (e : Char) (rest : List Char) (he : e ≠ 'u')
    (hs : isSimpleEscape e = true) :
    scanStr ('\\' :: e :: rest) = (scanStr rest).map fun p => ('\\' :: e :: p.1, p.2) := by
  rw [scanStr.eq_def]
  simp [he, hs]

theorem scanStr_plain (c : Char) (rest : List Char) (h1 : c ≠ '"') (h2 : c ≠ '\\')
    (h3 : ¬ c.toNat < 32) :
    scanStr (c :: rest) = (scanStr rest).map fun p => (htmlEscape c ++ p.1, p.2) := by
  rw [scanStr.eq_def]
  simp [h1, h2, h3]

theorem hex_digitChar (k : Nat) (h : k < 16) :
    isHex (Nat.digitChar k) = true ∧ hexVal (Nat.digitChar k) = k := by
  interval_cases k <;> decide

theorem hex4_uEscape (n : Nat) (h : n < 65536) :
    hex4 (Nat.digitChar (n / 4096 % 16)) (Nat.digitChar (n / 256 % 16))
      (Nat.digitChar (n / 16 % 16)) (Nat.digitChar (n % 16)) = n := by
  unfold hex4
  rw [(hex_digitChar _ (Nat.mod_lt _ (by decide))).2, (hex_digitChar _ (Nat.mod_lt _ (by decide))).2,
    (hex_digitChar _ (Nat.mod_lt _ (by decide))).2, (hex_digitChar _ (Nat.mod_lt _ (by decide))).2]
  omega

theorem isHex_uEscape (n : Nat) :
    (isHex (Nat.digitChar (n / 4096 % 16)) && isHex (Nat.digitChar (n / 256 % 16)) &&
      isHex (Nat.digitChar (n / 16 % 16)) && isHex (Nat.digitChar (n % 16))) = true := by
  rw [(hex_digitChar _ (Nat.mod_lt _ (by decide))).1, (hex_digitChar _ (Nat.mod_lt _ (by decide))).1,
    (hex_digitChar _ (Nat.mod_lt _ (by decide))).1, (hex_digitChar _ (Nat.mod_lt _ (by decide))).1]
  rfl

theorem scanStr_uEscape (n : Nat) (rest : List Char) :
    scanStr (uEscape n ++ rest) = (scanStr rest).map fun p => (uEscape n ++ p.1, p.2) := by
  unfold uEscape
  exact scanStr_u _ _ _ _ rest (isHex_uEscape n)

/-- A character that the encoder escapes with `\u`: its code point is small. -/
theorem isHTML_lt (c : Char) (h : isHTML c = true) : c.toNat < 55296 := by
  unfold isHTML at h
  simp only [Bool.or_eq_true, decide_eq_true_eq] at h
  rcases h with (((h | h) | h) | h) | h
  · subst h; decide
  · subst h; decide
  · subst h; decide
  · omega
  · omega

theorem isHTML_ne (c : Char) (h : isHTML c = true) : c ≠ '"' ∧ c ≠ '\\' ∧ ¬ c.toNat < 32 := by
  unfold isHTML at h
  simp only [Bool.or_eq_true, decide_eq_true_eq] at h
  rcases h with (((h | h) | h) | h) | h
  · subst h; decide
  · subst h; decide
  · subst h; decide
  · refine ⟨?_, ?_, by omega⟩ <;> (intro hc; subst hc; simp at h)
  · refine ⟨?_, ?_, by omega⟩ <;> (intro hc; subst hc; simp at h)

theorem scanStr_escapeChar (c : Char) (rest : List Char) :
    scanStr (escapeChar c ++ rest) = (scanStr rest).map fun p => (escapeChar c ++ p.1, p.2) := by
  unfold escapeChar
  by_cases h1 : c = '"'
  · subst h1
    exact scanStr_esc _ _ (by decide) (by decide)
  by_cases h2 : c = '\\'
  · subst h2
    exact scanStr_esc _ _ (by decide) (by decide)
  by_cases hb : c = Char.ofNat 8
  · subst hb
    exact scanStr_esc _ _ (by decide) (by decide)
  by_cases hf : c = Char.ofNat 12
  · subst hf
    exact scanStr_esc _ _ (by decide) (by decide)
  by_cases h3 : c = '\n'
  · subst h3
    exact scanStr_esc _ _ (by decide) (by decide)
  by_cases h4 : c = '\r'
  · subst h4
    exact scanStr_esc _ _ (by decide) (by decide)
  by_cases h5 : c = '\t'
  · subst h5
    exact scanStr_esc _ _ (by decide) (by decide)
  simp only [h1, h2, hb, hf, h3, h4, h5, if_false]
  by_cases h6 : (decide (c.toNat < 32) || isHTML c) = true
  · simp only [h6, if_true]
    exact scanStr_uEscape _ _
  · simp only [h6]
    simp only [Bool.or_eq_true, decide_eq_true_eq, not_or] at h6
    simp only [Bool.false_eq_true, if_false]
    rw [show ([c] ++ rest) = c :: rest from rfl, scanStr_plain c rest h1 h2 h6.1]
    simp [htmlEscape, h6.2]

theorem scanStr_escape (s rest : List Char) :
    scanStr (escape s ++ '"' :: rest) = some (escape s ++ ['"'], rest) := by
  induction s with
  | nil => simp [escape, scanStr_quote]
  | cons c cs ih =>
    simp only [escape, List.append_assoc]
    rw [scanStr_escapeChar, ih]
    simp

/-! ### Decoding what the encoder wrote -/

theorem unquote_u (h1 h2 h3 h4 : Char) (rest : List Char) (hr : hex4 h1 h2 h3 h4 < 55296) :
    unquoteFrom none ('\\' :: 'u' :: h1 :: h2 :: h3 :: h4 :: rest) =
      Char.ofNat (hex4 h1 h2 h3 h4) :: unquoteFrom none rest := by
  rw [unquoteFrom.eq_def]
  have h : ¬ (55296 ≤ hex4 h1 h2 h3 h4) := by omega
  have h' : ¬ (56320 ≤ hex4 h1 h2 h3 h4) := by omega
  simp [h, h']

theorem unquote_esc (e : Char) (rest : List Char) (he : e ≠ 'u') :
    unquoteFrom none ('\\' :: e :: rest) = unescape e :: unquoteFrom none rest := by
  rw [unquoteFrom.eq_def]
  simp [he]

theorem unquote_plain (c : Char) (rest : List Char) (h : c ≠ '\\') :
    unquoteFrom none (c :: rest) = c :: unquoteFrom none rest := by
  rw [unquoteFrom.eq_def]
  simp [h]

theorem unquote_uEscape (c : Char) (rest : List Char) (h : c.toNat < 55296) :
    unquoteFrom none (uEscape c.toNat ++ rest) = c :: unquoteFrom none rest := by
  unfold uEscape
  have h4 := hex4_uEscape c.toNat (by omega)
  rw [show ([('\\' : Char), 'u', Nat.digitChar (c.toNat / 4096 % 16),
      Nat.digitChar (c.toNat / 256 % 16), Nat.digitChar (c.toNat / 16 % 16),
      Nat.digitChar (c.toNat % 16)] ++ rest) =
    '\\' :: 'u' :: Nat.digitChar (c.toNat / 4096 % 16) :: Nat.digitChar (c.toNat / 256 % 16) ::
      Nat.digitChar (c.toNat / 16 % 16) :: Nat.digitChar (c.toNat % 16) :: rest from rfl,
    unquote_u _ _ _ _ rest (by rw [h4]; exact h), h4]
  congr 1
  exact Char.ofNat_toNat c

theorem unquote_escapeChar (c : Char) (rest : List Char) :
    unquoteFrom none (escapeChar c ++ rest) = c :: unquoteFrom none rest := by
  unfold escapeChar
  by_cases h1 : c = '"'
  · subst h1
    exact unquote_esc _ _ (by decide)
  by_cases h2 : c = '\\'
  · subst h2
    exact unquote_esc _ _ (by decide)
  by_cases hb : c = Char.ofNat 8
  · subst hb
    exact unquote_esc _ _ (by decide)
  by_cases hf : c = Char.ofNat 12
  · subst hf
    exact unquote_esc _ _ (by decide)
  by_cases h3 : c = '\n'
  · subst h3
    exact unquote_esc _ _ (by decide)
  by_cases h4 : c = '\r'
  · subst h4
    exact unquote_esc _ _ (by decide)
  by_cases h5 : c = '\t'
  · subst h5
    exact unquote_esc _ _ (by decide)
  simp only [h1, h2, hb, hf, h3, h4, h5, if_false]
  by_cases h6 : (decide (c.toNat < 32) || isHTML c) = true
  · simp only [h6, if_true]
    apply unquote_uEscape
    simp only [Bool.or_eq_true, decide_eq_true_eq] at h6
    rcases h6 with h6 | h6
    · omega
    · exact isHTML_lt c h6
  · simp only [h6]
    exact unquote_plain c rest h2

theorem unquote_escape (s : List Char) : unquote (escape s) = s := by
  unfold unquote
  induction s with
  | nil => simp [escape, unquoteFrom]
  | cons c cs ih =>
    simp only [escape]
    rw [unquote_escapeChar, ih]

/-! ## Number literals -/

theorem stops_nil : stops [] := by
  intro c t h; cases h

theorem stops_cons (c : Char) (t : List Char)
    (h : isDigit c = false ∧ c ≠ '.' ∧ c ≠ 'e' ∧ c ≠ 'E') : stops (c :: t) := by
  intro c1 t1 h1
  cases h1
  exact h

theorem spanDigits_all (cs : List Char) : ∀ c ∈ (spanDigits cs).1, isDigit c = true := by
  induction cs with
  | nil => simp [spanDigits]
  | cons d ds ih =>
    simp only [spanDigits]
    by_cases h : isDigit d = true
    · simp only [h, if_true]
      intro c hc
      rcases List.mem_cons.mp hc with hc | hc
      · subst hc; exact h
      · exact ih c hc
    · simp [h]

theorem spanDigits_append (ds rest : List Char) (hds : ∀ c ∈ ds, isDigit c = true)
    (hrest : ∀ c t, rest = c :: t → isDigit c = false) :
    spanDigits (ds ++ rest) = (ds, rest) := by
  induction ds with
  | nil =>
    cases rest with
    | nil => rfl
    | cons c t => simp [spanDigits, hrest c t rfl]
  | cons d ds ih =>
    have hd : isDigit d = true := hds d (List.mem_cons_self _ _)
    have := ih (fun c hc => hds c (List.mem_cons_of_mem _ hc))
    simp [spanDigits, hd, this]

theorem spanDigits_rescan (cs rest : List Char) (hrest : ∀ c t, rest = c :: t → isDigit c = false) :
    spanDigits ((spanDigits cs).1 ++ rest) = ((spanDigits cs).1, rest) :=
  spanDigits_append _ _ (spanDigits_all cs) hrest

theorem scanExp_stops (rest : List Char) (h : stops rest) : scanExp rest = some ([], rest) := by
  cases rest with
  | nil => rfl
  | cons c t =>
    obtain ⟨_, _, h3, h4⟩ := h c t rfl
    simp [scanExp, h3, h4]

theorem scanFrac_stops (rest : List Char) (h : stops rest) : scanFrac rest = some ([], rest) := by
  cases rest with
  | nil => rfl
  | cons c t =>
    obtain ⟨_, h2, _, _⟩ := h c t rfl
    simp only [scanFrac, h2, if_false]
    exact scanExp_stops _ h

theorem stops_digit (rest : List Char) (h : stops rest) :
    ∀ c t, rest = c :: t → isDigit c = false :=
  fun c t hc => (h c t hc).1

theorem scanExp_rescan (cs out rest rest1 : List Char) (h : scanExp cs = some (out, rest))
    (hs : stops rest1) : scanExp (out ++ rest1) = some (out, rest1) := by
  unfold scanExp at h
  cases cs with
  | nil =>
    simp only [Option.some.injEq, Prod.mk.injEq] at h
    obtain ⟨rfl, rfl⟩ := h
    exact scanExp_stops _ hs
  | cons e cs1 =>
    simp only at h
    by_cases he : (e = 'e' || e = 'E') = true
    · simp only [he, if_true] at h
      cases cs1 with
      | nil => simp at h
      | cons s cs2 =>
        simp only at h
        by_cases hsg : (s = '+' || s = '-') = true
        · simp only [hsg, if_true] at h
          have hre := spanDigits_rescan cs2 rest1 (stops_digit _ hs)
          cases hsp : (spanDigits cs2).1 with
          | nil =>
            rw [show spanDigits cs2 = ((spanDigits cs2).1, (spanDigits cs2).2) from rfl, hsp] at h
            simp at h
          | cons d ds =>
            rw [show spanDigits cs2 = ((spanDigits cs2).1, (spanDigits cs2).2) from rfl, hsp] at h
            simp only [Option.some.injEq, Prod.mk.injEq] at h
            obtain ⟨rfl, rfl⟩ := h
            rw [hsp] at hre
            simp only [scanExp, List.cons_append, he, hsg, if_true]
            rw [show d :: (ds ++ rest1) = (d :: ds) ++ rest1 from rfl, hre]
        · simp only [hsg] at h
          have hre := spanDigits_rescan (s :: cs2) rest1 (stops_digit _ hs)
          cases hsp : (spanDigits (s :: cs2)).1 with
          | nil =>
            rw [show spanDigits (s :: cs2) = ((spanDigits (s :: cs2)).1, (spanDigits (s :: cs2)).2)
              from rfl, hsp] at h
            simp at h
          | cons d ds =>
            rw [show spanDigits (s :: cs2) = ((spanDigits (s :: cs2)).1, (spanDigits (s :: cs2)).2)
              from rfl, hsp] at h
            simp only [Bool.false_eq_true, if_false, Option.some.injEq, Prod.mk.injEq] at h
            obtain ⟨rfl, rfl⟩ := h
            rw [hsp] at hre
            have hd : isDigit d = true := by
              have := spanDigits_all (s :: cs2) d (by rw [hsp]; exact List.mem_cons_self _ _)
              exact this
            have hd1 : ¬ ((d = '+' || d = '-') = true) := by
              intro hc
              simp only [Bool.or_eq_true, decide_eq_true_eq] at hc
              rcases hc with hc | hc <;> (subst hc; revert hd; decide)
            simp only [scanExp, List.cons_append, he, hd1, if_true]
            rw [show d :: (ds ++ rest1) = (d :: ds) ++ rest1 from rfl, hre]
            simp
    · simp only [he] at h
      simp only [Bool.false_eq_true, if_false, Option.some.injEq, Prod.mk.injEq] at h
      obtain ⟨rfl, rfl⟩ := h
      exact scanExp_stops _ hs

theorem scanExp_head (cs out rest : List Char) (h : scanExp cs = some (out, rest)) :
    out = [] ∨ ∃ e t, out = e :: t ∧ (e = 'e' ∨ e = 'E') := by
  unfold scanExp at h
  cases cs with
  | nil =>
    simp only [Option.some.injEq, Prod.mk.injEq] at h
    exact Or.inl h.1.symm
  | cons e cs1 =>
    simp only at h
    by_cases he : (e = 'e' || e = 'E') = true
    · have he' : e = 'e' ∨ e = 'E' := by simpa using he
      simp only [he, if_true] at h
      cases cs1 with
      | nil => simp at h
      | cons s cs2 =>
        simp only at h
        split at h
        · split at h
          · simp at h
          · simp only [Option.some.injEq, Prod.mk.injEq] at h
            exact Or.inr ⟨e, _, h.1.symm, he'⟩
        · split at h
          · simp at h
          · simp only [Option.some.injEq, Prod.mk.injEq] at h
            exact Or.inr ⟨e, _, h.1.symm, he'⟩
    · simp only [he, Bool.false_eq_true, if_false, Option.some.injEq, Prod.mk.injEq] at h
      exact Or.inl h.1.symm

theorem nondigitHead_of_exp (out rest1 : List Char)
    (h : out = [] ∨ ∃ e t, out = e :: t ∧ (e = 'e' ∨ e = 'E')) (hs : stops rest1) :
    nondigitHead (out ++ rest1) := by
  rcases h with h | ⟨e, t, h, he⟩
  · subst h
    exact stops_digit _ hs
  · subst h
    intro c t1 hc
    simp only [List.cons_append, List.cons.injEq] at hc
    obtain ⟨rfl, _⟩ := hc
    rcases he with he | he <;> (subst he; decide)

theorem scanFrac_rescan (cs out rest rest1 : List Char) (h : scanFrac cs = some (out, rest))
    (hs : stops rest1) :
    scanFrac (out ++ rest1) = some (out, rest1) ∧ nondigitHead (out ++ rest1) := by
  unfold scanFrac at h
  cases cs with
  | nil =>
    simp only [Option.some.injEq, Prod.mk.injEq] at h
    obtain ⟨rfl, rfl⟩ := h
    exact ⟨scanFrac_stops _ hs, stops_digit _ hs⟩
  | cons d cs1 =>
    simp only at h
    by_cases hd : d = '.'
    · subst hd
      simp only [if_true] at h
      cases hsp : (spanDigits cs1).1 with
      | nil =>
        rw [show spanDigits cs1 = ((spanDigits cs1).1, (spanDigits cs1).2) from rfl, hsp] at h
        simp at h
      | cons d ds =>
        rw [show spanDigits cs1 = ((spanDigits cs1).1, (spanDigits cs1).2) from rfl, hsp] at h
        simp only [Option.map_eq_some', Prod.mk.injEq] at h
        obtain ⟨⟨p1, p2⟩, hexp, rfl, rfl⟩ := h
        have hhead := nondigitHead_of_exp p1 rest1 (scanExp_head _ _ _ hexp) hs
        have hre := spanDigits_rescan cs1 (p1 ++ rest1) hhead
        rw [hsp] at hre
        constructor
        · simp only [scanFrac, List.cons_append, List.append_assoc, if_true]
          rw [show d :: (ds ++ (p1 ++ rest1)) = (d :: ds) ++ (p1 ++ rest1) from rfl, hre]
          simp [scanExp_rescan _ _ _ _ hexp hs]
        · intro c t hc
          simp only [List.cons_append, List.cons.injEq] at hc
          obtain ⟨rfl, _⟩ := hc
          decide
    · simp only [hd, if_false] at h
      have hh := scanExp_head _ _ _ h
      have hre := scanExp_rescan _ _ _ _ h hs
      refine ⟨?_, nondigitHead_of_exp out rest1 hh hs⟩
      rcases hh with hh | ⟨e, t, hh, he⟩
      · subst hh
        exact scanFrac_stops _ hs
      · subst hh
        have hne : e ≠ '.' := by
          rcases he with he | he <;> (subst he; decide)
        simp only [scanFrac, List.cons_append, hne, if_false]
        exact hre

theorem scanInt_rescan (cs out rest rest1 : List Char) (h : scanInt cs = some (out, rest))
    (hs : nondigitHead rest1) :
    scanInt (out ++ rest1) = some (out, rest1) ∧ ∃ d t, out = d :: t ∧ isDigit d = true := by
  unfold scanInt at h
  cases cs with
  | nil => simp at h
  | cons d cs1 =>
    simp only at h
    by_cases hd : d = '0'
    · subst hd
      simp only [if_true, Option.some.injEq, Prod.mk.injEq] at h
      obtain ⟨rfl, rfl⟩ := h
      exact ⟨by simp [scanInt], _, _, rfl, by decide⟩
    · simp only [hd, if_false] at h
      by_cases hdig : isDigit d = true
      · simp only [hdig, if_true, Option.some.injEq, Prod.mk.injEq] at h
        obtain ⟨rfl, rfl⟩ := h
        refine ⟨?_, _, _, rfl, hdig⟩
        simp only [scanInt, List.cons_append, hd, hdig, if_true, if_false]
        rw [spanDigits_rescan cs1 rest1 hs]
      · simp [hdig] at h

theorem scanNum_rescan (cs out rest rest1 : List Char) (h : scanNum cs = some (out, rest))
    (hs : stops rest1) :
    scanNum (out ++ rest1) = some (out, rest1) ∧
      ∃ d t, out = d :: t ∧ (d = '-' ∨ isDigit d = true) := by
  unfold scanNum at h
  cases cs with
  | nil => simp at h
  | cons c cs1 =>
    simp only at h
    by_cases hc : c = '-'
    · subst hc
      simp only [if_true] at h
      cases hi : scanInt cs1 with
      | none => simp [hi] at h
      | some ir =>
        obtain ⟨i, r⟩ := ir
        simp only [hi, Option.map_eq_some', Prod.mk.injEq] at h
        obtain ⟨⟨p1, p2⟩, hf, rfl, rfl⟩ := h
        obtain ⟨hf1, hf2⟩ := scanFrac_rescan _ _ _ rest1 hf hs
        obtain ⟨hi1, _⟩ := scanInt_rescan _ _ _ (p1 ++ rest1) hi hf2
        refine ⟨?_, _, _, rfl, Or.inl rfl⟩
        simp only [scanNum, List.cons_append, List.append_assoc, if_true, hi1, hf1]
        simp
    · simp only [hc, if_false] at h
      cases hi : scanInt (c :: cs1) with
      | none => simp [hi] at h
      | some ir =>
        obtain ⟨i, r⟩ := ir
        simp only [hi, Option.map_eq_some', Prod.mk.injEq] at h
        obtain ⟨⟨p1, p2⟩, hf, rfl, rfl⟩ := h
        obtain ⟨hf1, hf2⟩ := scanFrac_rescan _ _ _ rest1 hf hs
        obtain ⟨hi1, d, t, hdt, hdig⟩ := scanInt_rescan _ _ _ (p1 ++ rest1) hi hf2
        subst hdt
        refine ⟨?_, _, _, rfl, Or.inr hdig⟩
        have hne : d ≠ '-' := by
          rintro rfl
          revert hdig
          decide
        simp only [List.cons_append, List.append_assoc] at hi1 ⊢
        simp only [scanNum, hne, if_false, hi1, hf1]
        simp

/-! ## Integers as the encoder prints them -/

theorem digitChar_ne_zero (k : Nat) (h0 : 0 < k) (h : k < 10) : Nat.digitChar k ≠ '0' := by
  interval_cases k <;> decide

theorem digitChar_val (k : Nat) (h : k < 10) : (Nat.digitChar k).toNat - 48 = k := by
  interval_cases k <;> decide

theorem toDigits_head (k : Nat) (h0 : 0 < k) :
    ∃ d t, Nat.toDigits 10 k = d :: t ∧ d ≠ '0' := by
  induction k using Nat.strong_induction_on with
  | _ k ih =>
    by_cases h : k < 10
    · exact ⟨_, _, toDigits_small k h, digitChar_ne_zero k h0 h⟩
    · obtain ⟨d, t, hd, hne⟩ := ih (k / 10) (Nat.div_lt_self h0 (by decide))
        (Nat.div_pos (by omega) (by decide))
      rw [toDigits_large k (by omega), hd]
      exact ⟨d, _, rfl, hne⟩

theorem digitsVal_append (ds : List Char) (d : Char) :
    digitsVal (ds ++ [d]) = 10 * digitsVal ds + (d.toNat - 48) := by
  simp [digitsVal, List.foldl_append]

theorem digitsVal_toDigits (k : Nat) : digitsVal (Nat.toDigits 10 k) = k := by
  induction k using Nat.strong_induction_on with
  | _ k ih =>
    by_cases h : k < 10
    · rw [toDigits_small k h]
      simp [digitsVal, digitChar_val k h]
    · rw [toDigits_large k (by omega), digitsVal_append,
        ih (k / 10) (Nat.div_lt_self (by omega) (by decide)),
        digitChar_val _ (Nat.mod_lt _ (by decide))]
      omega

theorem scanInt_toDigits (k : Nat) :
    scanInt (Nat.toDigits 10 k) = some (Nat.toDigits 10 k, []) := by
  by_cases h0 : k = 0
  · subst h0
    rfl
  · obtain ⟨d, t, hd, hne⟩ := toDigits_head k (by omega)
    have hall := toDigits_isDigit k
    rw [hd] at hall ⊢
    have hdig : isDigit d = true := hall d (List.mem_cons_self _ _)
    have hsp := spanDigits_append t [] (fun c hc => hall c (List.mem_cons_of_mem _ hc))
      (by intro c t h; cases h)
    simp only [List.append_nil] at hsp
    simp [scanInt, hne, hdig, hsp]

theorem formatInt_data (n : Int) :
    (formatInt n).data =
      if n < 0 then '-' :: Nat.toDigits 10 n.natAbs else Nat.toDigits 10 n.toNat := by
  unfold formatInt
  by_cases h : n < 0
  · simp only [h, if_true, String.data_append]
    rfl
  · simp only [h, if_false]
    rfl

theorem scanNum_formatInt (n : Int) :
    scanNum (formatInt n).data = some ((formatInt n).data, []) := by
  rw [formatInt_data]
  by_cases h : n < 0
  · simp only [h, if_true]
    simp [scanNum, scanInt_toDigits, scanFrac]
  · simp only [h, if_false]
    obtain ⟨d, t, hd⟩ : ∃ d t, Nat.toDigits 10 n.toNat = d :: t := by
      cases hl : Nat.toDigits 10 n.toNat with
      | nil => exact absurd hl (toDigits_ne_nil _)
      | cons d t => exact ⟨d, t, rfl⟩
    have hdig : isDigit d = true := toDigits_isDigit n.toNat d (by rw [hd]; exact List.mem_cons_self _ _)
    have hne : d ≠ '-' := by
      rintro rfl
      revert hdig
      decide
    have hi := scanInt_toDigits n.toNat
    rw [hd] at hi ⊢
    simp [scanNum, hne, hi, scanFrac]

theorem parseInt_formatInt (n : Int) (hlo : -(2 ^ 63 : Int) ≤ n) (hhi : n < 2 ^ 63) :
    parseInt (formatInt n).data = some n := by
  rw [formatInt_data]
  by_cases h : n < 0
  · simp only [h, if_true]
    have hall : (Nat.toDigits 10 n.natAbs).all isDigit = true :=
      List.all_eq_true.mpr (toDigits_isDigit _)
    have hle : n.natAbs ≤ 2 ^ 63 := by omega
    simp only [parseInt, if_true, digitsVal_toDigits]
    rw [if_pos ⟨toDigits_ne_nil _, hall, hle⟩]
    congr 1
    omega
  · simp only [h, if_false]
    obtain ⟨d, t, hd⟩ : ∃ d t, Nat.toDigits 10 n.toNat = d :: t := by
      cases hl : Nat.toDigits 10 n.toNat with
      | nil => exact absurd hl (toDigits_ne_nil _)
      | cons d t => exact ⟨d, t, rfl⟩
    have hdig : isDigit d = true := toDigits_isDigit n.toNat d (by rw [hd]; exact List.mem_cons_self _ _)
    have hne : d ≠ '-' := by
      rintro rfl
      revert hdig
      decide
    have hall : (Nat.toDigits 10 n.toNat).all isDigit = true :=
      List.all_eq_true.mpr (toDigits_isDigit _)
    have hv := digitsVal_toDigits n.toNat
    have hlt : n.toNat < 2 ^ 63 := by omega
    rw [hd] at hall hv
    rw [hd]
    simp only [parseInt, hne, if_false]
    rw [if_pos ⟨hall, by rw [hv]; exact hlt⟩, hv]
    congr 1
    omega

theorem formatInt_head (n : Int) :
    ∃ d t, (formatInt n).data = d :: t ∧ (d = '-' ∨ isDigit d = true) := by
  obtain ⟨_, h⟩ := scanNum_rescan _ _ _ [] (scanNum_formatInt n) stops_nil
  exact h

/-! ## Scanning compact text again -/

theorem scanStr_rescan (cs : List Char) : ∀ (out rest : List Char),
    scanStr cs = some (out, rest) → ∀ rest1, scanStr (out ++ rest1) = some (out, rest1) := by
  induction cs using scanStr.induct with
  | case1 => intro out rest h; simp [scanStr] at h
  | case2 cs =>
    intro out rest h rest1
    rw [scanStr_quote] at h
    simp only [Option.some.injEq, Prod.mk.injEq] at h
    obtain ⟨rfl, rfl⟩ := h
    exact scanStr_quote rest1
  | case3 => intro out rest h; rw [scanStr.eq_def] at h; simp at h
  | case4 h1 h2 h3 h4 rest0 hh _ ih =>
    intro out rest h rest1
    rw [scanStr_u _ _ _ _ _ hh] at h
    simp only [Option.map_eq_some', Prod.mk.injEq] at h
    obtain ⟨⟨p1, p2⟩, hp, rfl, rfl⟩ := h
    have := ih p1 p2 hp rest1
    simp only [List.cons_append]
    rw [scanStr_u _ _ _ _ _ hh, this]
    rfl
  | case5 h1 h2 h3 h4 rest0 hh _ =>
    intro out rest h
    rw [scanStr.eq_def] at h
    simp [hh] at h
  | case6 cs hcs _ =>
    intro out rest h
    rw [scanStr.eq_def] at h
    simp at h
  | case7 c cs hc hs _ ih =>
    intro out rest h rest1
    rw [scanStr_esc _ _ hc hs] at h
    simp only [Option.map_eq_some', Prod.mk.injEq] at h
    obtain ⟨⟨p1, p2⟩, hp, rfl, rfl⟩ := h
    have := ih p1 p2 hp rest1
    simp only [List.cons_append]
    rw [scanStr_esc _ _ hc hs, this]
    rfl
  | case8 c cs hc hs _ =>
    intro out rest h
    rw [scanStr.eq_def] at h
    simp [hc, hs] at h
  | case9 c cs h1 h2 h3 =>
    intro out rest h
    rw [scanStr.eq_def] at h
    simp [h1, h2, h3] at h
  | case10 c cs h1 h2 h3 ih =>
    intro out rest h rest1
    rw [scanStr_plain _ _ h1 h2 h3] at h
    simp only [Option.map_eq_some', Prod.mk.injEq] at h
    obtain ⟨⟨p1, p2⟩, hp, rfl, rfl⟩ := h
    have := ih p1 p2 hp rest1
    unfold htmlEscape
    by_cases hh : isHTML c = true
    · simp only [hh, if_true, List.append_assoc]
      rw [scanStr_uEscape, this]
      rfl
    · simp only [hh, Bool.false_eq_true, if_false, List.cons_append, List.nil_append]
      rw [scanStr_plain _ _ h1 h2 h3, this]
      simp [htmlEscape, hh]

theorem scan_zero (depth : Nat) (mode : Mode) (cs : List Char) : scan 0 depth mode cs = none := rfl

theorem scan_value_nil (f depth : Nat) : scan (f + 1) depth Mode.value [] = none := rfl

theorem scan_value_cons (f depth : Nat) (c : Char) (cs1 : List Char) :
    scan (f + 1) depth Mode.value (c :: cs1) =
      if c = '"' then (scanStr cs1).map fun p => ('"' :: p.1, p.2)
      else if c = '{' then
        if maxNestingDepth ≤ depth then none
        else
          match skipSpace cs1 with
          | [] => none
          | d :: cs2 =>
            if d = '}' then some (['{', '}'], cs2)
            else (scan f (depth + 1) Mode.members (d :: cs2)).map fun p => ('{' :: p.1, p.2)
      else if c = '[' then
        if maxNestingDepth ≤ depth then none
        else
          match skipSpace cs1 with
          | [] => none
          | d :: cs2 =>
            if d = ']' then some (['[', ']'], cs2)
            else (scan f (depth + 1) Mode.elems (d :: cs2)).map fun p => ('[' :: p.1, p.2)
      else if c = 't' then scanLit ['t', 'r', 'u', 'e'] (c :: cs1)
      else if c = 'f' then scanLit ['f', 'a', 'l', 's', 'e'] (c :: cs1)
      else if c = 'n' then scanLit ['n', 'u', 'l', 'l'] (c :: cs1)
      else scanNum (c :: cs1) := rfl

theorem scan_elems (f depth : Nat) (cs : List Char) :
    scan (f + 1) depth Mode.elems cs =
      match scan f depth Mode.value cs with
      | none => none
      | some (v, rest) =>
        match skipSpace rest with
        | [] => none
        | d :: rest1 =>
          if d = ']' then some (v ++ [']'], rest1)
          else if d = ',' then
            (scan f depth Mode.elems (skipSpace rest1)).map fun p => (v ++ ',' :: p.1, p.2)
          else none := rfl

theorem scan_members_nil (f depth : Nat) : scan (f + 1) depth Mode.members [] = none := rfl

theorem scan_members_cons (f depth : Nat) (q : Char) (cs1 : List Char) :
    scan (f + 1) depth Mode.members (q :: cs1) =
      if q = '"' then
        match scanStr cs1 with
        | none => none
        | some (k, r0) =>
          match skipSpace r0 with
          | [] => none
          | col :: r1 =>
            if col = ':' then
              match scan f depth Mode.value (skipSpace r1) with
              | none => none
              | some (v, rest) =>
                match skipSpace rest with
                | [] => none
                | d :: rest1 =>
                  if d = '}' then some ('"' :: k ++ ':' :: v ++ ['}'], rest1)
                  else if d = ',' then
                    (scan f depth Mode.members (skipSpace rest1)).map
                      fun p => ('"' :: k ++ ':' :: v ++ ',' :: p.1, p.2)
                  else none
            else none
      else none := rfl

theorem skipSpace_cons (c : Char) (t : List Char) (h : isSpace c = false) :
    skipSpace (c :: t) = c :: t := by
  simp [skipSpace, h]

theorem numStart_facts (d : Char) (h : d = '-' ∨ isDigit d = true) :
    opens d ∧ d ≠ '"' ∧ d ≠ '{' ∧ d ≠ '[' ∧ d ≠ 't' ∧ d ≠ 'f' ∧ d ≠ 'n' := by
  rcases h with h | h
  · subst h
    unfold opens
    decide
  · unfold opens
    refine ⟨⟨?_, ?_, ?_⟩, ?_, ?_, ?_, ?_, ?_, ?_⟩
    · cases hs : isSpace d with
      | false => rfl
      | true =>
        simp only [isSpace, Bool.or_eq_true, decide_eq_true_eq] at hs
        rcases hs with ((hs | hs) | hs) | hs <;> (subst hs; revert h; decide)
    all_goals (rintro rfl; revert h; decide)

theorem stops_close (c : Char) (t : List Char) (h : c = ']' ∨ c = '}' ∨ c = ',') :
    stops (c :: t) := by
  apply stops_cons
  rcases h with h | h | h <;> (subst h; decide)

theorem scanLit_out (lit cs out rest : List Char) (h : scanLit lit cs = some (out, rest)) :
    out = lit := by
  unfold scanLit at h
  split at h
  · simp only [Option.some.injEq, Prod.mk.injEq] at h
    exact h.1.symm
  · cases h

theorem scanLit_self (lit rest1 : List Char) : scanLit lit (lit ++ rest1) = some (lit, rest1) := by
  unfold scanLit
  have : lit.isPrefixOf (lit ++ rest1) = true := by
    rw [List.isPrefixOf_iff_prefix]
    exact List.prefix_append _ _
  simp [this]

theorem scan_rescan : ∀ (f depth : Nat) (mode : Mode) (cs out rest : List Char),
    scan f depth mode cs = some (out, rest) →
    (∃ c t, out = c :: t ∧ opens c) ∧
    ∀ (g : Nat) (rest1 : List Char), out.length < g → (mode = Mode.value → stops rest1) →
      scan g depth mode (out ++ rest1) = some (out, rest1) := by
  intro f
  induction f with
  | zero => intro depth mode cs out rest h; simp [scan_zero] at h
  | succ f ih =>
    intro depth mode cs out rest h
    cases mode with
    | value =>
      cases cs with
      | nil => simp [scan_value_nil] at h
      | cons c cs1 =>
        rw [scan_value_cons] at h
        by_cases h1 : c = '"'
        · subst h1
          simp only [if_true, Option.map_eq_some', Prod.mk.injEq] at h
          obtain ⟨⟨p1, p2⟩, hp, rfl, rfl⟩ := h
          refine ⟨⟨_, _, rfl, by unfold opens; decide⟩, ?_⟩
          intro g rest1 hg _
          cases g with
          | zero => omega
          | succ g =>
            simp only [List.cons_append]
            rw [scan_value_cons]
            simp only [if_true]
            rw [scanStr_rescan _ _ _ hp rest1]
            rfl
        simp only [h1, if_false] at h
        by_cases h2 : c = '{'
        · subst h2
          simp only [if_true] at h
          by_cases hdep : maxNestingDepth ≤ depth
          · simp [hdep] at h
          simp only [hdep, if_false] at h
          cases hsk : skipSpace cs1 with
          | nil => simp [hsk] at h
          | cons d cs2 =>
            simp only [hsk] at h
            by_cases hd : d = '}'
            · subst hd
              simp only [if_true, Option.some.injEq, Prod.mk.injEq] at h
              obtain ⟨rfl, rfl⟩ := h
              refine ⟨⟨_, _, rfl, by unfold opens; decide⟩, ?_⟩
              intro g rest1 hg _
              cases g with
              | zero => omega
              | succ g =>
                simp only [List.cons_append, List.nil_append]
                rw [scan_value_cons]
                simp [skipSpace, isSpace, hdep]
            · simp only [hd, if_false, Option.map_eq_some', Prod.mk.injEq] at h
              obtain ⟨⟨p1, p2⟩, hp, rfl, rfl⟩ := h
              obtain ⟨⟨c0, t0, hp1, hopen⟩, hre⟩ := ih _ _ _ _ _ hp
              subst hp1
              refine ⟨⟨_, _, rfl, by unfold opens; decide⟩, ?_⟩
              intro g rest1 hg _
              cases g with
              | zero => omega
              | succ g =>
                have := hre g rest1 (by simp only [List.length_cons] at hg ⊢; omega) (by intro hm; cases hm)
                simp only [List.cons_append] at this ⊢
                rw [scan_value_cons]
                simp only [show ¬ (('{' : Char) = '"') by decide, if_false, if_true, hdep,
                  skipSpace_cons _ _ hopen.1, hopen.2.1, this]
                rfl
        simp only [h2, if_false] at h
        by_cases h3 : c = '['
        · subst h3
          simp only [if_true] at h
          by_cases hdep : maxNestingDepth ≤ depth
          · simp [hdep] at h
          simp only [hdep, if_false] at h
          cases hsk : skipSpace cs1 with
          | nil => simp [hsk] at h
          | cons d cs2 =>
            simp only [hsk] at h
            by_cases hd : d = ']'
            · subst hd
              simp only [if_true, Option.some.injEq, Prod.mk.injEq] at h
              obtain ⟨rfl, rfl⟩ := h
              refine ⟨⟨_, _, rfl, by unfold opens; decide⟩, ?_⟩
              intro g rest1 hg _
              cases g with
              | zero => omega
              | succ g =>
                simp only [List.cons_append, List.nil_append]
                rw [scan_value_cons]
                simp [skipSpace, isSpace, hdep]
            · simp only [hd, if_false, Option.map_eq_some', Prod.mk.injEq] at h
              obtain ⟨⟨p1, p2⟩, hp, rfl, rfl⟩ := h
              obtain ⟨⟨c0, t0, hp1, hopen⟩, hre⟩ := ih _ _ _ _ _ hp
              subst hp1
              refine ⟨⟨_, _, rfl, by unfold opens; decide⟩, ?_⟩
              intro g rest1 hg _
              cases g with
              | zero => omega
              | succ g =>
                have := hre g rest1 (by simp only [List.length_cons] at hg ⊢; omega) (by intro hm; cases hm)
                simp only [List.cons_append] at this ⊢
                rw [scan_value_cons]
                simp only [show ¬ (('[' : Char) = '"') by decide, show ¬ (('[' : Char) = '{') by decide,
                  if_false, if_true, hdep, skipSpace_cons _ _ hopen.1, hopen.2.2, this]
                rfl
        simp only [h3, if_false] at h
        by_cases h4 : c = 't'
        · subst h4
          simp only [if_true] at h
          have := scanLit_out _ _ _ _ h
          subst this
          refine ⟨⟨_, _, rfl, by unfold opens; decide⟩, ?_⟩
          intro g rest1 hg _
          cases g with
          | zero => omega
          | succ g =>
            have hl := scanLit_self ['t', 'r', 'u', 'e'] rest1
            simp only [List.cons_append, List.nil_append] at hl ⊢
            rw [scan_value_cons]
            simp only [show ¬ (('t' : Char) = '"') by decide, show ¬ (('t' : Char) = '{') by decide,
              show ¬ (('t' : Char) = '[') by decide, if_false, if_true, hl]
        simp only [h4, if_false] at h
        by_cases h5 : c = 'f'
        · subst h5
          simp only [if_true] at h
          have := scanLit_out _ _ _ _ h
          subst this
          refine ⟨⟨_, _, rfl, by unfold opens; decide⟩, ?_⟩
          intro g rest1 hg _
          cases g with
          | zero => omega
          | succ g =>
            have hl := scanLit_self ['f', 'a', 'l', 's', 'e'] rest1
            simp only [List.cons_append, List.nil_append] at hl ⊢
            rw [scan_value_cons]
            simp only [show ¬ (('f' : Char) = '"') by decide, show ¬ (('f' : Char) = '{') by decide,
              show ¬ (('f' : Char) = '[') by decide, show ¬ (('f' : Char) = 't') by decide,
              if_false, if_true, hl]
        simp only [h5, if_false] at h
        by_cases h6 : c = 'n'
        · subst h6
          simp only [if_true] at h
          have := scanLit_out _ _ _ _ h
          subst this
          refine ⟨⟨_, _, rfl, by unfold opens; decide⟩, ?_⟩
          intro g rest1 hg _
          cases g with
          | zero => omega
          | succ g =>
            have hl := scanLit_self ['n', 'u', 'l', 'l'] rest1
            simp only [List.cons_append, List.nil_append] at hl ⊢
            rw [scan_value_cons]
            simp only [show ¬ (('n' : Char) = '"') by decide, show ¬ (('n' : Char) = '{') by decide,
              show ¬ (('n' : Char) = '[') by decide, show ¬ (('n' : Char) = 't') by decide,
              show ¬ (('n' : Char) = 'f') by decide, if_false, if_true, hl]
        simp only [h6, if_false] at h
        have hnum : ∀ rest1, stops rest1 → _ := fun rest1 hs => scanNum_rescan _ _ _ rest1 h hs
        obtain ⟨_, d, t, hout, hd⟩ := hnum [] stops_nil
        subst hout
        obtain ⟨hopen, n1, n2, n3, n4, n5, n6⟩ := numStart_facts d hd
        refine ⟨⟨_, _, rfl, hopen⟩, ?_⟩
        intro g rest1 hg hs
        cases g with
        | zero => omega
        | succ g =>
          have := (hnum rest1 (hs rfl)).1
          simp only [List.cons_append] at this ⊢
          rw [scan_value_cons]
          simp only [n1, n2, n3, n4, n5, n6, if_false, this]
    | elems =>
      rw [scan_elems] at h
      cases hv : scan f depth Mode.value cs with
      | none => simp [hv] at h
      | some vr =>
        obtain ⟨v, r1⟩ := vr
        simp only [hv] at h
        obtain ⟨⟨c0, t0, hv0, hopen⟩, hre⟩ := ih _ _ _ _ _ hv
        cases hsk : skipSpace r1 with
        | nil => simp [hsk] at h
        | cons d r2 =>
          simp only [hsk] at h
          by_cases hd : d = ']'
          · subst hd
            simp only [if_true, Option.some.injEq, Prod.mk.injEq] at h
            obtain ⟨rfl, rfl⟩ := h
            refine ⟨⟨c0, t0 ++ [']'], by rw [hv0]; rfl, hopen⟩, ?_⟩
            intro g rest1 hg _
            cases g with
            | zero => omega
            | succ g =>
              have := hre g (']' :: rest1) (by simp only [List.length_append, List.length_cons] at hg; omega)
                (fun _ => stops_close _ _ (Or.inl rfl))
              rw [scan_elems]
              simp only [List.append_assoc, List.cons_append, List.nil_append, this]
              simp [skipSpace, isSpace]
          · simp only [hd, if_false] at h
            by_cases hd2 : d = ','
            · subst hd2
              simp only [if_true, Option.map_eq_some', Prod.mk.injEq] at h
              obtain ⟨⟨p1, p2⟩, hp, rfl, rfl⟩ := h
              obtain ⟨⟨c1, t1, hp1, hopen1⟩, hre1⟩ := ih _ _ _ _ _ hp
              refine ⟨⟨c0, t0 ++ ',' :: p1, by rw [hv0]; rfl, hopen⟩, ?_⟩
              intro g rest1 hg _
              cases g with
              | zero => omega
              | succ g =>
                have hlen : v.length < g ∧ p1.length < g := by
                  simp only [List.length_append, List.length_cons] at hg
                  omega
                have e1 := hre g (',' :: (p1 ++ rest1)) hlen.1
                  (fun _ => stops_close _ _ (Or.inr (Or.inr rfl)))
                have e2 := hre1 g rest1 hlen.2 (by intro hm; cases hm)
                rw [scan_elems]
                simp only [List.append_assoc, List.cons_append, e1]
                have e3 : skipSpace (p1 ++ rest1) = p1 ++ rest1 := by
                  rw [hp1]
                  exact skipSpace_cons _ _ hopen1.1
                simp [skipSpace, isSpace, e3, e2]
            · simp [hd2] at h
    | members =>
      cases cs with
      | nil => simp [scan_members_nil] at h
      | cons q cs1 =>
        rw [scan_members_cons] at h
        by_cases hq : q = '"'
        · subst hq
          simp only [if_true] at h
          cases hk : scanStr cs1 with
          | none => simp [hk] at h
          | some kr =>
            obtain ⟨k, r0⟩ := kr
            simp only [hk] at h
            cases hsk0 : skipSpace r0 with
            | nil => simp [hsk0] at h
            | cons col r1 =>
              simp only [hsk0] at h
              by_cases hcol : col = ':'
              · subst hcol
                simp only [if_true] at h
                cases hv : scan f depth Mode.value (skipSpace r1) with
                | none => simp [hv] at h
                | some vr =>
                  obtain ⟨v, r2⟩ := vr
                  simp only [hv] at h
                  obtain ⟨⟨c0, t0, hv0, hopen⟩, hre⟩ := ih _ _ _ _ _ hv
                  have e0 : ∀ tail, skipSpace (v ++ tail) = v ++ tail := by
                    intro tail
                    rw [hv0]
                    exact skipSpace_cons _ _ hopen.1
                  cases hsk : skipSpace r2 with
                  | nil => simp [hsk] at h
                  | cons d r3 =>
                    simp only [hsk] at h
                    by_cases hd : d = '}'
                    · subst hd
                      simp only [if_true, Option.some.injEq, Prod.mk.injEq] at h
                      obtain ⟨rfl, rfl⟩ := h
                      refine ⟨⟨_, _, rfl, by unfold opens; decide⟩, ?_⟩
                      intro g rest1 hg _
                      cases g with
                      | zero => omega
                      | succ g =>
                        have hlen : v.length < g := by
                          simp only [List.length_append, List.length_cons] at hg
                          omega
                        have e1 := hre g ('}' :: rest1) hlen
                          (fun _ => stops_close _ _ (Or.inr (Or.inl rfl)))
                        have e2 := scanStr_rescan _ _ _ hk (':' :: (v ++ '}' :: rest1))
                        simp only [List.cons_append, List.append_assoc, List.nil_append]
                        rw [scan_members_cons]
                        simp only [if_true, e2]
                        simp [skipSpace, isSpace, e0, e1]
                    · simp only [hd, if_false] at h
                      by_cases hd2 : d = ','
                      · subst hd2
                        simp only [if_true, Option.map_eq_some', Prod.mk.injEq] at h
                        obtain ⟨⟨p1, p2⟩, hp, rfl, rfl⟩ := h
                        obtain ⟨⟨c1, t1, hp1, hopen1⟩, hre1⟩ := ih _ _ _ _ _ hp
                        refine ⟨⟨_, _, rfl, by unfold opens; decide⟩, ?_⟩
                        intro g rest1 hg _
                        cases g with
                        | zero => omega
                        | succ g =>
                          have hlen : v.length < g ∧ p1.length < g := by
                            simp only [List.length_append, List.length_cons] at hg
                            omega
                          have e1 := hre g (',' :: (p1 ++ rest1)) hlen.1
                            (fun _ => stops_close _ _ (Or.inr (Or.inr rfl)))
                          have e2 := scanStr_rescan _ _ _ hk (':' :: (v ++ ',' :: (p1 ++ rest1)))
                          have e3 := hre1 g rest1 hlen.2 (by intro hm; cases hm)
                          have e4 : skipSpace (p1 ++ rest1) = p1 ++ rest1 := by
                            rw [hp1]
                            exact skipSpace_cons _ _ hopen1.1
                          simp only [List.cons_append, List.append_assoc]
                          rw [scan_members_cons]
                          simp only [if_true, e2]
                          simp [skipSpace, isSpace, e0, e1, e3, e4]
                      · simp [hd2] at h
              · simp [hcol] at h
        · simp [hq] at h

/-- Text the scanner accepts inside `d2` open brackets it accepts, with the
same result, inside fewer. -/
theorem scan_depth_mono : ∀ (f d1 d2 : Nat) (mode : Mode) (cs : List Char)
    (p : List Char × List Char), d1 ≤ d2 → scan f d2 mode cs = some p →
    scan f d1 mode cs = some p := by
  intro f
  induction f with
  | zero => intro d1 d2 mode cs p _ h; simp [scan_zero] at h
  | succ f ih =>
    intro d1 d2 mode cs p hd h
    cases mode with
    | value =>
      cases cs with
      | nil => simp [scan_value_nil] at h
      | cons c cs1 =>
        rw [scan_value_cons] at h ⊢
        by_cases h1 : c = '"'
        · simpa only [h1, if_true] using h
        simp only [h1, if_false] at h ⊢
        by_cases h2 : c = '{'
        · simp only [h2, if_true] at h ⊢
          by_cases hdep : maxNestingDepth ≤ d2
          · simp [hdep] at h
          have hdep1 : ¬ maxNestingDepth ≤ d1 := by omega
          simp only [hdep, hdep1, if_false] at h ⊢
          cases hsk : skipSpace cs1 with
          | nil => simp [hsk] at h
          | cons d cs2 =>
            simp only [hsk] at h ⊢
            by_cases hd0 : d = '}'
            · simpa only [hd0, if_true] using h
            · simp only [hd0, if_false, Option.map_eq_some'] at h ⊢
              obtain ⟨q, hq, rfl⟩ := h
              exact ⟨q, ih (d1 + 1) (d2 + 1) _ _ _ (by omega) hq, rfl⟩
        simp only [h2, if_false] at h ⊢
        by_cases h3 : c = '['
        · simp only [h3, if_true] at h ⊢
          by_cases hdep : maxNestingDepth ≤ d2
          · simp [hdep] at h
          have hdep1 : ¬ maxNestingDepth ≤ d1 := by omega
          simp only [hdep, hdep1, if_false] at h ⊢
          cases hsk : skipSpace cs1 with
          | nil => simp [hsk] at h
          | cons d cs2 =>
            simp only [hsk] at h ⊢
            by_cases hd0 : d = ']'
            · simpa only [hd0, if_true] using h
            · simp only [hd0, if_false, Option.map_eq_some'] at h ⊢
              obtain ⟨q, hq, rfl⟩ := h
              exact ⟨q, ih (d1 + 1) (d2 + 1) _ _ _ (by omega) hq, rfl⟩
        simpa only [h3, if_false] using h
    | elems =>
      rw [scan_elems] at h ⊢
      cases hv : scan f d2 Mode.value cs with
      | none => simp [hv] at h
      | some vr =>
        obtain ⟨v, r1⟩ := vr
        simp only [hv, ih d1 d2 _ _ _ hd hv] at h ⊢
        cases hsk : skipSpace r1 with
        | nil => simp [hsk] at h
        | cons d r2 =>
          simp only [hsk] at h ⊢
          by_cases hd1 : d = ']'
          · simpa only [hd1, if_true] using h
          simp only [hd1, if_false] at h ⊢
          by_cases hd2 : d = ','
          · simp only [hd2, if_true, Option.map_eq_some'] at h ⊢
            obtain ⟨q, hq, rfl⟩ := h
            exact ⟨q, ih d1 d2 _ _ _ hd hq, rfl⟩
          · simp [hd2] at h
    | members =>
      cases cs with
      | nil => simp [scan_members_nil] at h
      | cons q cs1 =>
        rw [scan_members_cons] at h ⊢
        by_cases hq : q = '"'
        · simp only [hq, if_true] at h ⊢
          cases hk : scanStr cs1 with
          | none => simp [hk] at h
          | some kr =>
            obtain ⟨k, r0⟩ := kr
            simp only [hk] at h ⊢
            cases hsk0 : skipSpace r0 with
            | nil => simp [hsk0] at h
            | cons col r1 =>
              simp only [hsk0] at h ⊢
              by_cases hcol : col = ':'
              · simp only [hcol, if_true] at h ⊢
                cases hv : scan f d2 Mode.value (skipSpace r1) with
                | none => simp [hv] at h
                | some vr =>
                  obtain ⟨v, r2⟩ := vr
                  simp only [hv, ih d1 d2 _ _ _ hd hv] at h ⊢
                  cases hsk : skipSpace r2 with
                  | nil => simp [hsk] at h
                  | cons d r3 =>
                    simp only [hsk] at h ⊢
                    by_cases hd1 : d = '}'
                    · simpa only [hd1, if_true] using h
                    simp only [hd1, if_false] at h ⊢
                    by_cases hd2 : d = ','
                    · simp only [hd2, if_true, Option.map_eq_some'] at h ⊢
                      obtain ⟨q, hq, rfl⟩ := h
                      exact ⟨q, ih d1 d2 _ _ _ hd hq, rfl⟩
                    · simp [hd2] at h
              · simp [hcol] at h
        · simp [hq] at h

/-! ## Rendered members are read back -/

theorem rescans_of_scan (f : Nat) (cs v rest : List Char)
    (h : scan f 1 Mode.value cs = some (v, rest)) : Rescans v :=
  ⟨(scan_rescan f 1 Mode.value cs v rest h).1,
    fun g rest1 hg hs => (scan_rescan f 1 Mode.value cs v rest h).2 g rest1 hg (fun _ => hs)⟩

theorem rescans_quote (s : String) : Rescans (quote s) := by
  apply rescans_of_scan 1 (quote s) (quote s) []
  unfold quote
  rw [show (1 : Nat) = 0 + 1 from rfl, List.cons_append, scan_value_cons]
  simp only [if_true, scanStr_escape]
  rfl

theorem rescans_formatInt (n : Int) : Rescans (formatInt n).data := by
  apply rescans_of_scan 1 (formatInt n).data (formatInt n).data []
  obtain ⟨d, t, hd, hstart⟩ := formatInt_head n
  obtain ⟨_, n1, n2, n3, n4, n5, n6⟩ := numStart_facts d hstart
  have := scanNum_formatInt n
  rw [hd] at this ⊢
  rw [show (1 : Nat) = 0 + 1 from rfl, scan_value_cons]
  simp only [n1, n2, n3, n4, n5, n6, if_false, this]

theorem consumed_append (a b : List Char) : consumed (a ++ b) b = a := by
  simp [consumed]

theorem renderFields_single (kv : String × List Char) :
    renderFields [kv] = quote kv.1 ++ ':' :: kv.2 := rfl

theorem renderFields_cons (kv kv2 : String × List Char) (rest : List (String × List Char)) :
    renderFields (kv :: kv2 :: rest) =
      quote kv.1 ++ ':' :: kv.2 ++ ',' :: renderFields (kv2 :: rest) := rfl

theorem renderFields_head (kv : String × List Char) (rest : List (String × List Char)) :
    ∃ t, renderFields (kv :: rest) = '"' :: t := by
  cases rest with
  | nil => exact ⟨_, rfl⟩
  | cons kv2 rest => exact ⟨_, rfl⟩

theorem skipSpace_render (kv : String × List Char) (rest : List (String × List Char))
    (tail : List Char) :
    skipSpace (renderFields (kv :: rest) ++ tail) = renderFields (kv :: rest) ++ tail := by
  obtain ⟨t, ht⟩ := renderFields_head kv rest
  rw [ht]
  exact skipSpace_cons _ _ (by decide)

theorem scan_members_render : ∀ (fs : List (String × List Char)) (kv : String × List Char),
    (∀ x ∈ kv :: fs, Rescans x.2) → ∀ (g : Nat) (tail : List Char),
    (renderFields (kv :: fs)).length + 1 < g →
    scan g 1 Mode.members (renderFields (kv :: fs) ++ '}' :: tail) =
      some (renderFields (kv :: fs) ++ ['}'], tail) := by
  intro fs
  induction fs with
  | nil =>
    intro kv hr g tail hg
    obtain ⟨⟨c0, t0, hv0, hopen⟩, hre⟩ := hr kv (List.mem_cons_self _ _)
    cases g with
    | zero => omega
    | succ g =>
      rw [renderFields_single] at hg ⊢
      have hlen : kv.2.length < g := by
        simp only [List.length_append, List.length_cons] at hg
        omega
      have e1 := hre g ('}' :: tail) hlen (stops_close _ _ (Or.inr (Or.inl rfl)))
      have e0 : skipSpace (kv.2 ++ '}' :: tail) = kv.2 ++ '}' :: tail := by
        rw [hv0]
        exact skipSpace_cons _ _ hopen.1
      have e2 := scanStr_escape kv.1.data (':' :: (kv.2 ++ '}' :: tail))
      simp only [quote, List.cons_append, List.append_assoc, List.nil_append]
      rw [scan_members_cons]
      simp only [if_true, e2]
      simp [skipSpace, isSpace, e0, e1]
  | cons kv2 rest ih =>
    intro kv hr g tail hg
    obtain ⟨⟨c0, t0, hv0, hopen⟩, hre⟩ := hr kv (List.mem_cons_self _ _)
    cases g with
    | zero => omega
    | succ g =>
      rw [renderFields_cons] at hg ⊢
      have hlen : kv.2.length < g ∧ (renderFields (kv2 :: rest)).length + 1 < g := by
        simp only [List.length_append, List.length_cons, quote] at hg
        omega
      have e1 := hre g (',' :: (renderFields (kv2 :: rest) ++ '}' :: tail)) hlen.1
        (stops_close _ _ (Or.inr (Or.inr rfl)))
      have e0 : ∀ tl, skipSpace (kv.2 ++ tl) = kv.2 ++ tl := by
        intro tl
        rw [hv0]
        exact skipSpace_cons _ _ hopen.1
      have e2 := scanStr_escape kv.1.data
        (':' :: (kv.2 ++ ',' :: (renderFields (kv2 :: rest) ++ '}' :: tail)))
      have e3 := ih kv2 (fun x hx => hr x (List.mem_cons_of_mem _ hx)) g tail hlen.2
      have e4 := skipSpace_render kv2 rest ('}' :: tail)
      simp only [quote, List.cons_append, List.append_assoc, List.nil_append] at e2 ⊢
      rw [scan_members_cons]
      simp only [if_true, e2]
      simp [skipSpace, isSpace, e0, e1, e3, e4]

theorem objMembers_render : ∀ (fs : List (String × List Char)) (kv : String × List Char),
    (∀ x ∈ kv :: fs, Rescans x.2) → ∀ (g : Nat) (tail : List Char),
    (renderFields (kv :: fs)).length + 1 < g →
    objMembers g (renderFields (kv :: fs) ++ '}' :: tail) =
      some ((kv :: fs).map (fun x => (x.1.data, x.2)), tail) := by
  intro fs
  induction fs with
  | nil =>
    intro kv hr g tail hg
    obtain ⟨⟨c0, t0, hv0, hopen⟩, hre⟩ := hr kv (List.mem_cons_self _ _)
    cases g with
    | zero => omega
    | succ g =>
      rw [renderFields_single] at hg ⊢
      have hlen : kv.2.length < g := by
        simp only [List.length_append, List.length_cons] at hg
        omega
      have e1 := hre g ('}' :: tail) hlen (stops_close _ _ (Or.inr (Or.inl rfl)))
      have e0 : skipSpace (kv.2 ++ '}' :: tail) = kv.2 ++ '}' :: tail := by
        rw [hv0]
        exact skipSpace_cons _ _ hopen.1
      have e2 := scanStr_escape kv.1.data (':' :: (kv.2 ++ '}' :: tail))
      have e5 := consumed_append (escape kv.1.data ++ ['"']) (':' :: (kv.2 ++ '}' :: tail))
      have e6 := consumed_append kv.2 ('}' :: tail)
      simp only [List.append_assoc, List.cons_append, List.nil_append] at e5
      simp only [quote, List.cons_append, List.append_assoc, List.nil_append]
      rw [objMembers]
      simp only [if_true, e2]
      simp [skipSpace, isSpace, e0, e1, e5, e6, unquote_escape]
  | cons kv2 rest ih =>
    intro kv hr g tail hg
    obtain ⟨⟨c0, t0, hv0, hopen⟩, hre⟩ := hr kv (List.mem_cons_self _ _)
    cases g with
    | zero => omega
    | succ g =>
      rw [renderFields_cons] at hg ⊢
      have hlen : kv.2.length < g ∧ (renderFields (kv2 :: rest)).length + 1 < g := by
        simp only [List.length_append, List.length_cons, quote] at hg
        omega
      have e1 := hre g (',' :: (renderFields (kv2 :: rest) ++ '}' :: tail)) hlen.1
        (stops_close _ _ (Or.inr (Or.inr rfl)))
      have e0 : ∀ tl, skipSpace (kv.2 ++ tl) = kv.2 ++ tl := by
        intro tl
        rw [hv0]
        exact skipSpace_cons _ _ hopen.1
      have e2 := scanStr_escape kv.1.data
        (':' :: (kv.2 ++ ',' :: (renderFields (kv2 :: rest) ++ '}' :: tail)))
      have e3 := ih kv2 (fun x hx => hr x (List.mem_cons_of_mem _ hx)) g tail hlen.2
      have e4 := skipSpace_render kv2 rest ('}' :: tail)
      have e5 := consumed_append (escape kv.1.data ++ ['"'])
        (':' :: (kv.2 ++ ',' :: (renderFields (kv2 :: rest) ++ '}' :: tail)))
      have e6 := consumed_append kv.2 (',' :: (renderFields (kv2 :: rest) ++ '}' :: tail))
      simp only [List.append_assoc, List.cons_append, List.nil_append] at e5
      simp only [quote, List.cons_append, List.append_assoc, List.nil_append] at e2 ⊢
      rw [objMembers]
      simp only [if_true, e2]
      simp [skipSpace, isSpace, e0, e1, e3, e4, e5, e6, unquote_escape]

/-! ## Filling the fields -/

theorem stringValue_quote (old s : String) : stringValue old (quote s) = some s := by
  simp [stringValue, quote, unquote_escape]

theorem intValue_formatInt (old n : Int) (hlo : -(2 ^ 63 : Int) ≤ n) (hhi : n < 2 ^ 63) :
    intValue old (formatInt n).data = some n := by
  obtain ⟨d, t, hd, hstart⟩ := formatInt_head n
  obtain ⟨_, _, _, _, _, _, n6⟩ := numStart_facts d hstart
  have hp := parseInt_formatInt n hlo hhi
  rw [hd] at hp ⊢
  have hs : (d = '-' || isDigit d) = true := by
    rcases hstart with h | h
    · simp [h]
    · simp [h]
  simp only [intValue, n6, if_false, hs, if_true, hp]

theorem setField_named (m : Message) (k raw : List Char) (name : String)
    (h : String.mk (k.map foldChar) = name) :
    setField m (k, raw) =
      if name = "type" then (stringValue m.Type_ raw).map fun v => { m with Type_ := v }
      else if name = "sid" then (stringValue m.Sid raw).map fun v => { m with Sid := v }
      else if name = "action" then (stringValue m.Action raw).map fun v => { m with Action := v }
      else if name = "ip" then (stringValue m.IP raw).map fun v => { m with IP := v }
      else if name = "uid" then (stringValue m.UID raw).map fun v => { m with UID := v }
      else if name = "code" then (intValue m.Code raw).map fun v => { m with Code := v }
      else if name = "result" then some { m with Result := String.mk raw }
      else some m := by
  subst h
  rfl

theorem setField_type (m : Message) (s : String) :
    setField m (['t', 'y', 'p', 'e'], quote s) = some { m with Type_ := s } := by
  rw [setField_named m _ _ "type" (by decide)]
  simp [stringValue_quote]

theorem setField_sid (m : Message) (s : String) :
    setField m (['s', 'i', 'd'], quote s) = some { m with Sid := s } := by
  rw [setField_named m _ _ "sid" (by decide)]
  simp [stringValue_quote]

theorem setField_action (m : Message) (s : String) :
    setField m (['a', 'c', 't', 'i', 'o', 'n'], quote s) = some { m with Action := s } := by
  rw [setField_named m _ _ "action" (by decide)]
  simp [stringValue_quote]

theorem setField_ip (m : Message) (s : String) :
    setField m (['i', 'p'], quote s) = some { m with IP := s } := by
  rw [setField_named m _ _ "ip" (by decide)]
  simp [stringValue_quote]

theorem setField_uid (m : Message) (s : String) :
    setField m (['u', 'i', 'd'], quote s) = some { m with UID := s } := by
  rw [setField_named m _ _ "uid" (by decide)]
  simp [stringValue_quote]

theorem setField_code (m : Message) (n : Int) (hlo : -(2 ^ 63 : Int) ≤ n) (hhi : n < 2 ^ 63) :
    setField m (['c', 'o', 'd', 'e'], (formatInt n).data) = some { m with Code := n } := by
  rw [setField_named m _ _ "code" (by decide)]
  simp [intValue_formatInt _ n hlo hhi]

theorem setField_result (m : Message) (r : List Char) :
    setField m (['r', 'e', 's', 'u', 'l', 't'], r) = some { m with Result := String.mk r } := by
  rw [setField_named m _ _ "result" (by decide)]
  simp

/-! ## Decoding an encoded Message -/

theorem unmarshal_render (kv : String × List Char) (fs : List (String × List Char))
    (tail : List Char) (htail : skipSpace tail = [])
    (hr : ∀ x ∈ kv :: fs, Rescans x.2) :
    unmarshal (String.mk ('{' :: (renderFields (kv :: fs) ++ '}' :: tail))) =
      setFields {} ((kv :: fs).map fun x => (x.1.data, x.2)) := by
  obtain ⟨t, ht⟩ := renderFields_head kv fs
  have hlen : ('{' :: (renderFields (kv :: fs) ++ '}' :: tail)).length =
      (renderFields (kv :: fs)).length + tail.length + 2 := by
    simp only [List.length_cons, List.length_append]
    omega
  have e1 := scan_members_render fs kv hr ((renderFields (kv :: fs)).length + tail.length + 2) tail
    (by omega)
  have e2 := objMembers_render fs kv hr ((renderFields (kv :: fs) ++ '}' :: tail).length + 1) tail
    (by simp only [List.length_append, List.length_cons]; omega)
  have e3 := skipSpace_render kv fs ('}' :: tail)
  have hvalid : valid ('{' :: (renderFields (kv :: fs) ++ '}' :: tail)) = true := by
    unfold valid compact compactAt
    rw [skipSpace_cons _ _ (by decide), hlen, scan_value_cons]
    simp only [show ¬ (('{' : Char) = '"') by decide, if_false, if_true, e3,
      show ¬ (maxNestingDepth ≤ 0) by decide]
    rw [ht] at e1 ⊢
    simp only [List.cons_append, List.length_cons] at e1 ⊢
    simp [e1, htail]
  unfold unmarshal
  simp only [hvalid, if_true]
  rw [skipSpace_cons _ _ (by decide)]
  simp only [if_true, e3]
  rw [ht] at e2 ⊢
  simp only [List.cons_append] at e2 ⊢
  simp only [show ¬ (('"' : Char) = '}') by decide, if_false, e2]

theorem unmarshal_frame (kv : String × List Char) (fs : List (String × List Char))
    (hr : ∀ x ∈ kv :: fs, Rescans x.2) :
    unmarshal (String.mk ('{' :: renderFields (kv :: fs) ++ ['}'] ++ ['\n'])) =
      setFields {} ((kv :: fs).map fun x => (x.1.data, x.2)) := by
  have hT : '{' :: renderFields (kv :: fs) ++ ['}'] ++ ['\n'] =
      '{' :: (renderFields (kv :: fs) ++ '}' :: ['\n']) := by simp
  rw [hT]
  exact unmarshal_render kv fs ['\n'] rfl hr

theorem setFields_append (m : Message) (a b : List (List Char × List Char)) :
    setFields m (a ++ b) = (setFields m a).bind fun m1 => setFields m1 b := by
  induction a generalizing m with
  | nil => rfl
  | cons kv a ih =>
    simp only [List.cons_append, setFields]
    cases setField m kv with
    | none => rfl
    | some m1 => exact ih m1

theorem rescans_of_compact (r out : List Char) (h : compactAt 1 r = some out) : Rescans out := by
  unfold compactAt at h
  cases hs : scan (r.length + 1) 1 Mode.value (skipSpace r) with
  | none => simp [hs] at h
  | some p =>
    obtain ⟨o, rest⟩ := p
    simp only [hs] at h
    split at h
    · simp only [Option.some.injEq] at h
      subst h
      exact rescans_of_scan _ _ _ _ hs
    · cases h

theorem compact_nil : compact [] = none := rfl

/-- What the scanner accepts one level down it accepts at the top, with the
same compact text. -/
theorem compact_of_compactAt (r out : List Char) (h : compactAt 1 r = some out) :
    compact r = some out := by
  unfold compact
  unfold compactAt at h ⊢
  cases hs : scan (r.length + 1) 1 Mode.value (skipSpace r) with
  | none => simp [hs] at h
  | some p =>
    rw [scan_depth_mono _ 0 1 _ _ p (by decide) hs]
    rw [hs] at h
    exact h

theorem setFields_ip (m0 : Message) (ip : String) (h : m0.IP = "") :
    setFields m0 ((if ip = "" then [] else [("ip", quote ip)]).map asMember) =
      some { m0 with IP := ip } := by
  by_cases hip : ip = ""
  · subst hip
    obtain ⟨a, b, c, d, e, f, g⟩ := m0
    simp only at h
    subst h
    simp [setFields]
  · simp [hip, setFields, asMember, setField_ip]

theorem setFields_uid (m0 : Message) (uid : String) (h : m0.UID = "") :
    setFields m0 ((if uid = "" then [] else [("uid", quote uid)]).map asMember) =
      some { m0 with UID := uid } := by
  by_cases hip : uid = ""
  · subst hip
    obtain ⟨a, b, c, d, e, f, g⟩ := m0
    simp only at h
    subst h
    simp [setFields]
  · simp [hip, setFields, asMember, setField_uid]

theorem setFields_code (m0 : Message) (code : Int) (h : m0.Code = 0)
    (hlo : -(2 ^ 63 : Int) ≤ code) (hhi : code < 2 ^ 63) :
    setFields m0 ((if code = 0 then [] else [("code", (formatInt code).data)]).map asMember) =
      some { m0 with Code := code } := by
  by_cases hip : code = 0
  · subst hip
    obtain ⟨a, b, c, d, e, f, g⟩ := m0
    simp only at h
    subst h
    simp [setFields]
  · simp [hip, setFields, asMember, setField_code _ _ hlo hhi]

theorem setFields_fixed (ty sid act : String) :
    setFields {} ([("type", quote ty), ("sid", quote sid), ("action", quote act)].map asMember) =
      some { Type_ := ty, Sid := sid, Action := act } := by
  simp [setFields, asMember, setField_type, setField_sid, setField_action]

theorem setFields_head (ty sid act ip uid : String) (code : Int)
    (hlo : -(2 ^ 63 : Int) ≤ code) (hhi : code < 2 ^ 63) :
    setFields {} ((headFields ty sid act ip uid code).map asMember) =
      some { Type_ := ty, Sid := sid, Action := act, IP := ip, UID := uid, Code := code } := by
  unfold headFields
  simp only [List.map_append, setFields_append, setFields_fixed, Option.some_bind]
  rw [setFields_ip _ _ rfl]
  simp only [Option.some_bind]
  rw [setFields_uid _ _ rfl]
  simp only [Option.some_bind]
  rw [setFields_code _ _ rfl hlo hhi]

theorem rescans_head (ty sid act ip uid : String) (code : Int) :
    ∀ x ∈ headFields ty sid act ip uid code, Rescans x.2 := by
  intro x hx
  unfold headFields at hx
  simp only [List.mem_append, List.mem_cons, List.mem_singleton, List.not_mem_nil, or_false] at hx
  rcases hx with ((hx | hx) | hx) | hx
  · rcases hx with hx | hx | hx <;> (subst hx; exact rescans_quote _)
  · split at hx
    · simp at hx
    · simp only [List.mem_singleton] at hx
      subst hx
      exact rescans_quote _
  · split at hx
    · simp at hx
    · simp only [List.mem_singleton] at hx
      subst hx
      exact rescans_quote _
  · split at hx
    · simp at hx
    · simp only [List.mem_singleton] at hx
      subst hx
      exact rescans_formatInt _

theorem headFields_cons (ty sid act ip uid : String) (code : Int) :
    ∃ rest, headFields ty sid act ip uid code = ("type", quote ty) :: rest := ⟨_, rfl⟩

theorem keys_head (ty sid act ip uid : String) (code : Int) :
    (ip = "" ↔ "ip" ∉ keysOf (headFields ty sid act ip uid code)) ∧
    (uid = "" ↔ "uid" ∉ keysOf (headFields ty sid act ip uid code)) ∧
    (code = 0 ↔ "code" ∉ keysOf (headFields ty sid act ip uid code)) ∧
    "result" ∉ keysOf (headFields ty sid act ip uid code) := by
  unfold headFields keysOf
  by_cases h1 : ip = "" <;> by_cases h2 : uid = "" <;> by_cases h3 : code = 0 <;>
    simp [h1, h2, h3]

theorem encodeFields_eq (m : Message) :
    encodeFields m =
      if m.Result = "" then some (headFields m.Type_ m.Sid m.Action m.IP m.UID m.Code)
      else
        match compact m.Result.data with
        | none => none
        | some r => some (headFields m.Type_ m.Sid m.Action m.IP m.UID m.Code ++ [("result", r)]) :=
  rfl

theorem roundtrip_core (m : Message) (hlo : -(2 ^ 63 : Int) ≤ m.Code) (hhi : m.Code < 2 ^ 63)
    (hres : m.Result = "" ∨ fitsFrame m.Result = true) :
    ∃ (fs : List (String × List Char)) (frame : String),
      encodeFields m = some fs ∧ encode m = some frame ∧
      unmarshal frame = some { m with Result := compactResult m.Result } ∧
      (m.IP = "" ↔ "ip" ∉ keysOf fs) ∧ (m.UID = "" ↔ "uid" ∉ keysOf fs) ∧
      (m.Code = 0 ↔ "code" ∉ keysOf fs) ∧ (m.Result = "" ↔ "result" ∉ keysOf fs) := by
  obtain ⟨ty, sid, act, ip, uid, code, res⟩ := m
  simp only at hlo hhi hres ⊢
  have hcomp : res = "" ∨ (res ≠ "" ∧ ∃ out, compactAt 1 res.data = some out) := by
    rcases hres with h | h
    · exact Or.inl h
    · right
      constructor
      · rintro rfl
        revert h
        decide
      · unfold fitsFrame at h
        cases hc : compactAt 1 res.data with
        | none => simp [hc] at h
        | some out => exact ⟨out, rfl⟩
  obtain ⟨rest, hcons⟩ := headFields_cons ty sid act ip uid code
  obtain ⟨k1, k2, k3, k4⟩ := keys_head ty sid act ip uid code
  rcases hcomp with hr | ⟨hrne, out, hout1⟩
  · subst hr
    have hE : encodeFields ⟨ty, sid, act, ip, uid, code, ""⟩ =
        some (headFields ty sid act ip uid code) := by
      rw [encodeFields_eq]
      simp
    refine ⟨headFields ty sid act ip uid code,
      String.mk ('{' :: renderFields (headFields ty sid act ip uid code) ++ ['}'] ++ ['\n']),
      hE, ?_, ?_, k1, k2, k3, ?_⟩
    · simp [encode, marshal, hE]
    · have hr := rescans_head ty sid act ip uid code
      rw [hcons] at hr ⊢
      rw [unmarshal_frame _ _ hr, ← hcons]
      have := setFields_head ty sid act ip uid code hlo hhi
      unfold asMember at this
      rw [this]
      simp [compactResult, compact_nil]
    · simp [k4]
  · have hout := compact_of_compactAt _ _ hout1
    have hE : encodeFields ⟨ty, sid, act, ip, uid, code, res⟩ =
        some (headFields ty sid act ip uid code ++ [("result", out)]) := by
      rw [encodeFields_eq]
      simp [hrne, hout]
    refine ⟨headFields ty sid act ip uid code ++ [("result", out)],
      String.mk ('{' :: renderFields (headFields ty sid act ip uid code ++ [("result", out)])
        ++ ['}'] ++ ['\n']),
      hE, ?_, ?_, ?_, ?_, ?_, ?_⟩
    · simp [encode, marshal, hE]
    · have hr : ∀ x ∈ headFields ty sid act ip uid code ++ [("result", out)], Rescans x.2 := by
        intro x hx
        rcases List.mem_append.mp hx with hx | hx
        · exact rescans_head ty sid act ip uid code x hx
        · simp only [List.mem_singleton] at hx
          subst hx
          exact rescans_of_compact _ _ hout1
      have hc2 : headFields ty sid act ip uid code ++ [("result", out)] =
          ("type", quote ty) :: (rest ++ [("result", out)]) := by rw [hcons]; rfl
      rw [hc2] at hr ⊢
      rw [unmarshal_frame _ _ hr, ← hc2, List.map_append, setFields_append]
      have := setFields_head ty sid act ip uid code hlo hhi
      unfold asMember at this
      rw [this]
      simp [setFields, setField_result, compactResult, hout]
    · simpa [keysOf] using k1
    · simpa [keysOf] using k2
    · simpa [keysOf] using k3
    · simp [keysOf, hrne]

/-! ## Error responses (C3, C4) -/

set_option maxRecDepth 4096 in
/-- C3, the failing case: when the endpoint does not answer in time,
`handleInfo` logs the error of `client.Do` and hands `WriteJSON` one Message
with `Code` 500; its `Result`, the error message pasted between quotes, is not
well-formed JSON, so it is no object with the message under `error`, and the
Message cannot be encoded: no response frame is written, as after a failed
read of the body. -/
theorem handleInfo_timeout_unanswered :
    handleInfo (httpDown timedOut) sampleInfo "7" =
      [Effect.log (LogLine.requestFailed timedOut), Effect.writeJSON timedOutResponse] ∧
    timedOutResponse.Code = 500 ∧
    timedOutResponse.Result =
      "\x7b\"error\": \"Get \"http://127.0.0.1:37549/api/serverinfo\": context deadline exceeded (Client.Timeout exceeded while awaiting headers)\"\x7d" ∧
    valid timedOutResponse.Result.data = false ∧
    (writes (handleInfo (httpDown timedOut) sampleInfo "7")).filterMap encode = [] := by
  refine ⟨rfl, rfl, by decide, by decide, by decide⟩

/-- C4, the failing case: the error of `client.Do` quotes the URL, the payload
built from it is not well-formed JSON, and `WriteJSON` cannot encode the
response; the same happens in `handlePing` for a message with a quote. -/
theorem error_result_not_json :
    writes (handleInfo (httpDown refused) sampleInfo "7") = [refusedResponse] ∧
    valid refusedResponse.Result.data = false ∧
    encode refusedResponse = none ∧
    (∃ m, writes (handlePing (pingUnresolved "lookup \"x\": no such host") "linux" samplePing "7")
        = [m] ∧ m.Code = 500 ∧ valid m.Result.data = false) := by
  refine ⟨rfl, by decide, by decide, _, rfl, rfl, by decide⟩

/-! ## A `Code` of 0 (C6) -/

theorem setField_keeps_code (m m1 : Message) (kv : List Char × List Char)
    (hk : String.mk (kv.1.map foldChar) ≠ "code") (h : setField m kv = some m1) :
    m1.Code = m.Code := by
  obtain ⟨k, raw⟩ := kv
  rw [setField_named m k raw _ rfl] at h
  simp only at hk
  simp only [hk, if_false] at h
  repeat' split at h
  all_goals first
    | (simp only [Option.map_eq_some'] at h
       obtain ⟨v, _, rfl⟩ := h
       rfl)
    | (simp only [Option.some.injEq] at h
       subst h
       rfl)

theorem setFields_keeps_code : ∀ (pre : List (List Char × List Char)) (m m1 : Message),
    (∀ kv ∈ pre, String.mk (kv.1.map foldChar) ≠ "code") → setFields m pre = some m1 →
    m1.Code = m.Code := by
  intro pre
  induction pre with
  | nil =>
    intro m m1 _ h
    simp only [setFields, Option.some.injEq] at h
    subst h
    rfl
  | cons kv pre ih =>
    intro m m1 hk h
    simp only [setFields] at h
    cases hs : setField m kv with
    | none => simp [hs] at h
    | some m2 =>
      simp only [hs] at h
      rw [ih m2 m1 (fun x hx => hk x (List.mem_cons_of_mem _ hx)) h,
        setField_keeps_code m m2 kv (hk kv (List.mem_cons_self _ _)) hs]

theorem setField_code_zero (m : Message) (k : List Char)
    (hk : String.mk (k.map foldChar) = "code") (h : m.Code = 0) :
    setField m (k, ['0']) = some m := by
  rw [setField_named m _ _ "code" hk]
  obtain ⟨a, b, c, d, e, f, g⟩ := m
  simp only at h
  subst h
  rfl

theorem unmarshal_members (frame : String) :
    unmarshal frame = (members frame).bind (setFields {}) := by
  unfold unmarshal members
  by_cases hv : valid frame.data = true
  · simp only [hv, if_true]
    cases skipSpace frame.data with
    | nil => rfl
    | cons c cs =>
      by_cases hc : c = '{'
      · simp only [hc, if_true]
        cases skipSpace cs with
        | nil => rfl
        | cons d cs1 =>
          by_cases hd : d = '}'
          · simp only [hd, if_true, Option.some_bind, setFields]
          · simp only [hd, if_false]
            cases objMembers (cs.length + 1) (d :: cs1) with
            | none => rfl
            | some p => rfl
      · simp only [hc, if_false]
        by_cases hn : c = 'n'
        · simp only [hn, if_true, Option.some_bind, setFields]
        · simp only [hn, if_false, Option.none_bind]
  · simp only [hv, if_false, Option.none_bind]
    rfl

/-- C6, as stated, fails: a frame with `"code":0` and the same frame without
the key decode to the same Message, and the heartbeat Message with `Code` 0
in place of 200 is encoded without a `code` key. -/
theorem code_zero_decodes_as_absent :
    unmarshal "\x7b\"type\":\"node\",\"sid\":\"7\",\"action\":\"ping\",\"code\":0\x7d" =
      some { Type_ := "node", Sid := "7", Action := "ping" } ∧
    unmarshal "\x7b\"type\":\"node\",\"sid\":\"7\",\"action\":\"ping\"\x7d" =
      some { Type_ := "node", Sid := "7", Action := "ping" } ∧
    encode { heartbeatMessage "7" with Code := 0 } =
      some "\x7b\"type\":\"node\",\"sid\":\"7\",\"action\":\"head\"\x7d\n" := by
  decide

theorem unmarshal_objectText (fs : List (String × List Char))
    (hv : ∀ x ∈ fs, isCompactValue x.2 = true) :
    unmarshal (objectText fs) = setFields {} (fs.map asMember) := by
  have hr : ∀ x ∈ fs, Rescans x.2 := by
    intro x hx
    have := hv x hx
    unfold isCompactValue at this
    exact rescans_of_compact x.2 x.2 (of_decide_eq_true this)
  cases fs with
  | nil => decide
  | cons kv fs => exact unmarshal_render kv fs [] rfl hr

theorem setFields_code_zero (pre post : List (List Char × List Char)) (k : List Char)
    (hc0 : String.mk (k.map foldChar) = "code")
    (hk : ∀ kv ∈ pre, String.mk (kv.1.map foldChar) ≠ "code") :
    setFields {} (pre ++ (k, ['0']) :: post) = setFields {} (pre ++ post) := by
  rw [setFields_append, setFields_append]
  cases hs : setFields {} pre with
  | none => rfl
  | some m1 =>
    have hc : m1.Code = 0 := setFields_keeps_code pre {} m1 hk hs
    simp only [Option.some_bind, setFields, setField_code_zero m1 k hc0 hc]

/-- C6, amended. A `Code` that is absent and a `Code` that is 0 are the same
Message.  Whenever two inputs hold the same members except that the first
holds, in addition, a member whose key matches `code` and whose value is `0`,
at a place before which no key matches `code`, `json.Unmarshal` gives the same
result for both: the same Message, or the same failure.  In particular, for a
JSON object in compact form (keys as string literals, values well-formed
compact JSON), the text with the member `"code":0` and the text without it
decode alike.  And encode writes a `code` key exactly when `Code` is not 0. -/
theorem code_zero_same_as_absent :
    (∀ (t1 t2 : String) (pre post : List (List Char × List Char)) (k : List Char),
      String.mk (k.map foldChar) = "code" →
      (∀ kv ∈ pre, String.mk (kv.1.map foldChar) ≠ "code") →
      members t1 = some (pre ++ (k, ['0']) :: post) →
      members t2 = some (pre ++ post) →
      unmarshal t1 = unmarshal t2) ∧
    (∀ (pre post : List (String × List Char)),
      (∀ x ∈ pre ++ post, isCompactValue x.2 = true) →
      (∀ x ∈ pre, String.mk (x.1.data.map foldChar) ≠ "code") →
      unmarshal (objectText (pre ++ ("code", ['0']) :: post)) =
        unmarshal (objectText (pre ++ post))) ∧
    (∀ (m : Message) (fs : List (String × List Char)), encodeFields m = some fs →
      ("code" ∈ keysOf fs ↔ m.Code ≠ 0)) := by
  refine ⟨?_, ?_, ?_⟩
  · intro t1 t2 pre post k hc0 hk h1 h2
    rw [unmarshal_members, unmarshal_members, h1, h2]
    exact setFields_code_zero pre post k hc0 hk
  · intro pre post hv hk
    have hv1 : ∀ x ∈ pre ++ ("code", ['0']) :: post, isCompactValue x.2 = true := by
      intro x hx
      rcases List.mem_append.mp hx with h | h
      · exact hv x (List.mem_append_left _ h)
      · rcases List.mem_cons.mp h with h | h
        · subst h
          decide
        · exact hv x (List.mem_append_right _ h)
    rw [unmarshal_objectText _ hv1, unmarshal_objectText _ hv]
    simp only [List.map_append, List.map_cons]
    exact setFields_code_zero (pre.map asMember) (post.map asMember) _ (by decide) (by
      intro kv hkv
      obtain ⟨x, hx, rfl⟩ := List.mem_map.mp hkv
      exact hk x hx)
  · intro m fs h
    obtain ⟨_, _, k3, _⟩ := keys_head m.Type_ m.Sid m.Action m.IP m.UID m.Code
    rw [encodeFields_eq] at h
    split at h
    · simp only [Option.some.injEq] at h
      subst h
      constructor
      · intro hin hz
        exact (k3.mp hz) hin
      · intro hne
        by_contra hnot
        exact hne (k3.mpr hnot)
    · split at h
      · cases h
      · rename_i r _
        simp only [Option.some.injEq] at h
        subst h
        have : "code" ∈ keysOf (headFields m.Type_ m.Sid m.Action m.IP m.UID m.Code ++ [("result", r)])
            ↔ "code" ∈ keysOf (headFields m.Type_ m.Sid m.Action m.IP m.UID m.Code) := by
          simp [keysOf]
        rw [this]
        constructor
        · intro hin hz
          exact (k3.mp hz) hin
        · intro hne
          by_contra hnot
          exact hne (k3.mpr hnot)

theorem code_zero_same_as_absent_witness :
    unmarshal " \x7b \"type\" : \"node\", \"Code\" : 0 , \"result\" : [1, 2] \x7d " =
      unmarshal "\x7b\"type\":\"node\",\n \"result\":[1, 2]\x7d" ∧
    unmarshal "\x7b\"type\":\"node\",\"code\":0,\"result\":[1,\x7b\"a\":null\x7d]\x7d" =
      unmarshal "\x7b\"type\":\"node\",\"result\":[1,\x7b\"a\":null\x7d]\x7d" ∧
    unmarshal "\x7b\"type\":\"node\",\"result\":[1,\x7b\"a\":null\x7d]\x7d" =
      some { Type_ := "node", Result := "[1,\x7b\"a\":null\x7d]" } ∧
    ("code" ∈ keysOf [("type", quote ""), ("sid", quote ""), ("action", quote ""),
        ("code", "500".data)] ↔ (500 : Int) ≠ 0) :=
  ⟨code_zero_same_as_absent.1 _ _ [("type".data, "\"node\"".data)]
      [("result".data, "[1, 2]".data)] "Code".data (by decide) (by decide) (by decide) (by decide),
   code_zero_same_as_absent.2.1 [("type", "\"node\"".data)]
      [("result", "[1,\x7b\"a\":null\x7d]".data)] (by decide) (by decide),
   by decide,
   code_zero_same_as_absent.2.2 { Code := 500 } _ rfl⟩

/-! ## The nesting limit -/

theorem nested_succ (k : Nat) (rest : List Char) :
    nested (k + 1) ++ rest = '[' :: (nested k ++ ']' :: rest) := by
  unfold nested
  rw [List.replicate_succ, List.replicate_succ']
  simp

theorem nested_head (k : Nat) (rest : List Char) :
    ∃ t, nested (k + 1) ++ rest = '[' :: t := ⟨_, nested_succ k rest⟩

/-- Within the limit, nested arrays are read as they are. -/
theorem scan_nested : ∀ (k f d : Nat) (rest : List Char),
    d + (k + 1) ≤ maxNestingDepth → 2 * (k + 1) ≤ f →
    scan f d Mode.value (nested (k + 1) ++ rest) = some (nested (k + 1), rest) := by
  intro k
  induction k with
  | zero =>
    intro f d rest hd hf
    obtain ⟨f1, rfl⟩ : ∃ f1, f = f1 + 1 := ⟨f - 1, by omega⟩
    have hdep : ¬ maxNestingDepth ≤ d := by omega
    show scan (f1 + 1) d Mode.value ('[' :: ']' :: rest) = _
    rw [scan_value_cons]
    simp [hdep, skipSpace, isSpace, nested]
  | succ k ih =>
    intro f d rest hd hf
    obtain ⟨f2, rfl⟩ : ∃ f2, f = f2 + 1 + 1 := ⟨f - 2, by omega⟩
    have hdep : ¬ maxNestingDepth ≤ d := by omega
    have e1 := ih f2 (d + 1) (']' :: rest) (by omega) (by omega)
    obtain ⟨t, ht⟩ := nested_head k (']' :: rest)
    have e2 : skipSpace (nested (k + 1) ++ ']' :: rest) = '[' :: t := by
      rw [ht]
      exact skipSpace_cons _ _ (by decide)
    have e3 : nested (k + 1 + 1) = '[' :: (nested (k + 1) ++ [']']) := by
      have := nested_succ (k + 1) []
      simpa using this
    rw [nested_succ, scan_value_cons]
    simp only [show ¬ (('[' : Char) = '"') by decide, show ¬ (('[' : Char) = '{') by decide,
      if_false, if_true, hdep, e2, show ¬ (('[' : Char) = ']') by decide]
    rw [← ht, scan_elems, e1]
    simp [skipSpace, isSpace, e3]

/-- Past the limit, the scanner stops at the bracket that goes too deep. -/
theorem scan_too_deep : ∀ (k f d : Nat) (rest : List Char),
    maxNestingDepth < d + (k + 1) →
    scan f d Mode.value (List.replicate (k + 1) '[' ++ rest) = none := by
  intro k
  induction k with
  | zero =>
    intro f d rest hd
    cases f with
    | zero => rfl
    | succ f =>
      have hdep : maxNestingDepth ≤ d := by omega
      show scan (f + 1) d Mode.value ('[' :: rest) = none
      rw [scan_value_cons]
      simp [hdep]
  | succ k ih =>
    intro f d rest hd
    cases f with
    | zero => rfl
    | succ f =>
      rw [List.replicate_succ, List.cons_append, scan_value_cons]
      simp only [show ¬ (('[' : Char) = '"') by decide, show ¬ (('[' : Char) = '{') by decide,
        if_false, if_true]
      by_cases hdep : maxNestingDepth ≤ d
      · simp [hdep]
      · simp only [hdep, if_false]
        have e2 : skipSpace (List.replicate (k + 1) '[' ++ rest) =
            '[' :: (List.replicate k '[' ++ rest) := by
          rw [List.replicate_succ, List.cons_append]
          exact skipSpace_cons _ _ (by decide)
        simp only [e2, show ¬ (('[' : Char) = ']') by decide, if_false]
        cases f with
        | zero => rfl
        | succ f =>
          have e1 := ih f (d + 1) rest (by omega)
          rw [List.replicate_succ, List.cons_append] at e1
          rw [scan_elems, e1]
          rfl

theorem scan_members_last_fails (key : String) (v tail : List Char)
    (hv : ∀ g, scan g 1 Mode.value (skipSpace (v ++ '}' :: tail)) = none) :
    ∀ g, scan g 1 Mode.members (renderFields [(key, v)] ++ '}' :: tail) = none := by
  intro g
  cases g with
  | zero => rfl
  | succ g =>
    have e2 := scanStr_escape key.data (':' :: (v ++ '}' :: tail))
    rw [renderFields_single]
    simp only [quote, List.cons_append, List.append_assoc, List.nil_append] at e2 ⊢
    rw [scan_members_cons]
    simp only [if_true, e2]
    simp [skipSpace, isSpace, hv]

theorem scan_members_fails : ∀ (fs : List (String × List Char)) (kv : String × List Char),
    (∀ x ∈ kv :: fs, Rescans x.2) → ∀ (key : String) (v tail : List Char),
    (∀ g, scan g 1 Mode.value (skipSpace (v ++ '}' :: tail)) = none) →
    ∀ (g : Nat), (renderFields (kv :: fs)).length + 1 < g →
    scan g 1 Mode.members (renderFields (kv :: (fs ++ [(key, v)])) ++ '}' :: tail) = none := by
  intro fs
  induction fs with
  | nil =>
    intro kv hr key v tail hv g hg
    obtain ⟨⟨c0, t0, hv0, hopen⟩, hre⟩ := hr kv (List.mem_cons_self _ _)
    cases g with
    | zero => omega
    | succ g =>
      rw [renderFields_single] at hg
      rw [List.nil_append, renderFields_cons]
      have hlen : kv.2.length < g := by
        simp only [List.length_append, List.length_cons] at hg
        omega
      have e1 := hre g (',' :: (renderFields [(key, v)] ++ '}' :: tail)) hlen
        (stops_close _ _ (Or.inr (Or.inr rfl)))
      have e0 : ∀ tl, skipSpace (kv.2 ++ tl) = kv.2 ++ tl := by
        intro tl
        rw [hv0]
        exact skipSpace_cons _ _ hopen.1
      have e2 := scanStr_escape kv.1.data
        (':' :: (kv.2 ++ ',' :: (renderFields [(key, v)] ++ '}' :: tail)))
      have e3 := scan_members_last_fails key v tail hv g
      have e4 := skipSpace_render (key, v) [] ('}' :: tail)
      rw [renderFields_single] at e3 e4
      simp only [quote, List.cons_append, List.append_assoc, List.nil_append] at e2 e3 e4 ⊢
      rw [scan_members_cons]
      simp only [if_true, e2]
      simp [skipSpace, isSpace, e0, e1, e3, e4]
  | cons kv2 rest ih =>
    intro kv hr key v tail hv g hg
    obtain ⟨⟨c0, t0, hv0, hopen⟩, hre⟩ := hr kv (List.mem_cons_self _ _)
    cases g with
    | zero => omega
    | succ g =>
      rw [renderFields_cons] at hg
      rw [List.cons_append, renderFields_cons]
      have hlen : kv.2.length < g ∧ (renderFields (kv2 :: rest)).length + 1 < g := by
        simp only [List.length_append, List.length_cons, quote] at hg
        omega
      have e1 := hre g (',' :: (renderFields (kv2 :: (rest ++ [(key, v)])) ++ '}' :: tail)) hlen.1
        (stops_close _ _ (Or.inr (Or.inr rfl)))
      have e0 : ∀ tl, skipSpace (kv.2 ++ tl) = kv.2 ++ tl := by
        intro tl
        rw [hv0]
        exact skipSpace_cons _ _ hopen.1
      have e2 := scanStr_escape kv.1.data
        (':' :: (kv.2 ++ ',' :: (renderFields (kv2 :: (rest ++ [(key, v)])) ++ '}' :: tail)))
      have e3 := ih kv2 (fun x hx => hr x (List.mem_cons_of_mem _ hx)) key v tail hv g hlen.2
      have e4 := skipSpace_render kv2 (rest ++ [(key, v)]) ('}' :: tail)
      simp only [quote, List.cons_append, List.append_assoc, List.nil_append] at e2 ⊢
      rw [scan_members_cons]
      simp only [if_true, e2]
      simp [skipSpace, isSpace, e0, e1, e3, e4]

theorem bareFrame_invalid (r : List Char)
    (hv : ∀ g, scan g 1 Mode.value (skipSpace (r ++ '}' :: ['\n'])) = none) :
    unmarshal (bareFrame r) = none := by
  have hr := rescans_head "" "" "" "" "" 0
  have hh : headFields "" "" "" "" "" 0 =
      ("type", quote "") :: [("sid", quote ""), ("action", quote "")] := rfl
  rw [hh] at hr
  have hfs : headFields "" "" "" "" "" 0 ++ [("result", r)] =
      ("type", quote "") :: ([("sid", quote ""), ("action", quote "")] ++ [("result", r)]) := rfl
  have hT : ∀ R : List Char, '{' :: R ++ ['}'] ++ ['\n'] = '{' :: (R ++ '}' :: ['\n']) := by
    intro R
    simp
  generalize hR : renderFields (("type", quote "") ::
    ([("sid", quote ""), ("action", quote "")] ++ [("result", r)])) = R at *
  have e3 : skipSpace (R ++ '}' :: ['\n']) = R ++ '}' :: ['\n'] := by
    rw [← hR]
    exact skipSpace_render _ _ _
  obtain ⟨t, ht⟩ : ∃ t, R = '"' :: t := by
    rw [← hR]
    exact renderFields_head _ _
  have hl : (renderFields (("type", quote "") :: [("sid", quote ""), ("action", quote "")])).length
      + 1 < R.length + 3 := by
    rw [← hR]
    simp [renderFields, quote, escape]
    omega
  have e1 := scan_members_fails [("sid", quote ""), ("action", quote "")] ("type", quote "") hr
    "result" r ['\n'] hv (R.length + 3) hl
  rw [hR] at e1
  have hlen : ('{' :: (R ++ '}' :: ['\n'])).length = R.length + 3 := by simp
  have hvalid : valid ('{' :: (R ++ '}' :: ['\n'])) = false := by
    unfold valid compact compactAt
    rw [skipSpace_cons _ _ (by decide), hlen, scan_value_cons]
    simp only [show ¬ (('{' : Char) = '"') by decide, if_false, if_true, e3,
      show ¬ (maxNestingDepth ≤ 0) by decide]
    rw [ht] at e1 ⊢
    simp only [List.cons_append, List.length_cons] at e1 ⊢
    simp [e1]
  unfold bareFrame unmarshal
  rw [hfs, hR, hT]
  simp [hvalid]

theorem encode_bare (r out : List Char) (hne : r ≠ []) (hc : compact r = some out) :
    encode { Result := String.mk r } = some (bareFrame out) := by
  have hE : encodeFields { Result := String.mk r } =
      some (headFields "" "" "" "" "" 0 ++ [("result", out)]) := by
    rw [encodeFields_eq]
    have : String.mk r ≠ "" := by
      intro h
      exact hne (by simpa using congrArg String.data h)
    simp [this, hc]
  simp [encode, marshal, hE, bareFrame]

theorem nested_limit (n : Nat) (hn : n + 1 = maxNestingDepth) :
    compact (nested (n + 1)) = some (nested (n + 1)) ∧
    encode { Result := String.mk (nested (n + 1)) } = some (bareFrame (nested (n + 1))) ∧
    unmarshal (bareFrame (nested (n + 1))) = none := by
  obtain ⟨t, ht⟩ := nested_head n []
  rw [List.append_nil] at ht
  have hc : compact (nested (n + 1)) = some (nested (n + 1)) := by
    unfold compact compactAt
    have e1 := scan_nested n ((nested (n + 1)).length + 1) 0 []
      (by omega) (by simp only [nested, List.length_append, List.length_replicate]; omega)
    rw [List.append_nil] at e1
    rw [show skipSpace (nested (n + 1)) = nested (n + 1) by
      rw [ht]; exact skipSpace_cons _ _ (by decide)]
    rw [e1]
    rfl
  refine ⟨hc, ?_, ?_⟩
  · refine encode_bare _ _ ?_ hc
    rw [ht]
    exact List.cons_ne_nil _ _
  · apply bareFrame_invalid
    intro g
    have : nested (n + 1) ++ '}' :: ['\n'] =
        List.replicate (n + 1) '[' ++ (List.replicate (n + 1) ']' ++ '}' :: ['\n']) := by
      unfold nested
      rw [List.append_assoc]
    rw [this]
    have e2 : skipSpace (List.replicate (n + 1) '[' ++
        (List.replicate (n + 1) ']' ++ '}' :: ['\n'])) =
        List.replicate (n + 1) '[' ++ (List.replicate (n + 1) ']' ++ '}' :: ['\n']) := by
      rw [List.replicate_succ, List.cons_append]
      exact skipSpace_cons _ _ (by decide)
    rw [e2]
    exact scan_too_deep n g 1 _ (by omega)

/-- At the limit: a `Result` of `maxNestingDepth` arrays inside one another is
well-formed for the encoder, which writes it as it is, but not for the decoder,
which meets it one level down inside the object of the frame. -/
theorem deepest_not_decoded :
    valid deepest.Result.data = true ∧
    encode deepest = some (bareFrame (nested maxNestingDepth)) ∧
    unmarshal (bareFrame (nested maxNestingDepth)) = none := by
  obtain ⟨h1, h2, h3⟩ := nested_limit 9999 rfl
  have hn : (9999 : Nat) + 1 = maxNestingDepth := rfl
  rw [hn] at h1 h2 h3
  refine ⟨?_, h2, h3⟩
  unfold valid
  rw [show deepest.Result.data = nested maxNestingDepth from rfl, h1]
  rfl

/-! ## Round trip of a Message (C5) -/

theorem timeout_roundtrip :
    valid timeoutResponse.Result.data = true ∧
    encode timeoutResponse = some
      "\x7b\"type\":\"node\",\"sid\":\"7\",\"action\":\"info\",\"uid\":\"u-18\",\"code\":500,\"result\":\x7b\"error\":\"timeout\"\x7d\x7d\n" ∧
    (encode timeoutResponse).bind unmarshal =
      some { timeoutResponse with Result := "\x7b\"error\":\"timeout\"\x7d" } ∧
    (encode timeoutResponse).bind unmarshal ≠ some timeoutResponse := by
  decide

/-- C5, as stated, fails, in two ways.  The response `handleInfo` builds for
the error `timeout` has a well-formed `Result`, yet decoding its encoding gives
a `Result` without the blank after the colon, so not the Message encoded.  And
a Message whose `Result` is `maxNestingDepth` arrays inside one another, which
is well-formed, is encoded into a frame that cannot be decoded at all. -/
theorem roundtrip_changes_result :
    (valid timeoutResponse.Result.data = true ∧
      encode timeoutResponse = some
        "\x7b\"type\":\"node\",\"sid\":\"7\",\"action\":\"info\",\"uid\":\"u-18\",\"code\":500,\"result\":\x7b\"error\":\"timeout\"\x7d\x7d\n" ∧
      (encode timeoutResponse).bind unmarshal =
        some { timeoutResponse with Result := "\x7b\"error\":\"timeout\"\x7d" } ∧
      (encode timeoutResponse).bind unmarshal ≠ some timeoutResponse) ∧
    (valid deepest.Result.data = true ∧ (encode deepest).isSome = true ∧
      (encode deepest).bind unmarshal = none) := by
  obtain ⟨h1, h2, h3⟩ := deepest_not_decoded
  constructor
  · exact timeout_roundtrip
  · refine ⟨h1, ?_, ?_⟩
    · rw [h2]
      rfl
    · rw [h2, Option.some_bind]
      exact h3

/-- C5, amended. For a Message whose strings are valid UTF-8 (every `String`
here), whose `Code` fits a Go `int` and whose `Result` is empty or well-formed
JSON nested less than `maxNestingDepth` deep (the frame puts it one level
down), encoding succeeds and decoding the encoding gives back `Type`, `Sid`,
`Action`, `IP`, `UID` and `Code` as they are and `Result` in compact form, so
the whole Message when `Result` is empty or already compact; each of `ip`,
`uid`, `code`, `result` is written as a key exactly when the field does not
hold its zero value, and a field that holds it holds it after decoding. -/
theorem encode_decode_roundtrip (m : Message)
    (hlo : -(2 ^ 63 : Int) ≤ m.Code) (hhi : m.Code < 2 ^ 63)
    (hres : m.Result = "" ∨ fitsFrame m.Result = true) :
    ∃ (fs : List (String × List Char)) (frame : String) (d : Message),
      encodeFields m = some fs ∧ encode m = some frame ∧ unmarshal frame = some d ∧
      d.Type_ = m.Type_ ∧ d.Sid = m.Sid ∧ d.Action = m.Action ∧ d.IP = m.IP ∧ d.UID = m.UID ∧
      d.Code = m.Code ∧ d.Result = compactResult m.Result ∧
      (m.Result = "" ∨ compact m.Result.data = some m.Result.data → d = m) ∧
      (m.IP = "" ↔ "ip" ∉ keysOf fs) ∧ (m.UID = "" ↔ "uid" ∉ keysOf fs) ∧
      (m.Code = 0 ↔ "code" ∉ keysOf fs) ∧ (m.Result = "" ↔ "result" ∉ keysOf fs) ∧
      (m.IP = "" → d.IP = "") ∧ (m.UID = "" → d.UID = "") ∧ (m.Code = 0 → d.Code = 0) ∧
      (m.Result = "" → d.Result = "") := by
  obtain ⟨fs, frame, h1, h2, h3, k1, k2, k3, k4⟩ := roundtrip_core m hlo hhi hres
  have hc : m.Result = "" ∨ compact m.Result.data = some m.Result.data →
      compactResult m.Result = m.Result := by
    rintro (h | h)
    · rw [h]; rfl
    · simp [compactResult, h]
  refine ⟨fs, frame, _, h1, h2, h3, rfl, rfl, rfl, rfl, rfl, rfl, rfl, ?_, k1, k2, k3, k4,
    fun h => h, fun h => h, fun h => h, ?_⟩
  · intro h
    obtain ⟨a, b, c, d, e, f, g⟩ := m
    simp only at hc ⊢
    rw [hc h]
  · intro h
    show compactResult m.Result = ""
    rw [hc (Or.inl h), h]

theorem encode_decode_roundtrip_witness :
    fitsFrame "[1, 2]" = true ∧
    ∃ (frame : String),
      encode { samplePing with Result := "[1, 2]" } = some frame ∧
      unmarshal frame = some { samplePing with Result := "[1,2]" } := by
  refine ⟨by decide, ?_⟩
  obtain ⟨fs, frame, d, _, h2, h3, e1, e2, e3, e4, e5, e6, e7, _⟩ :=
    encode_decode_roundtrip { samplePing with Result := "[1, 2]" } (by decide) (by decide)
      (Or.inr (by decide))
  refine ⟨frame, h2, ?_⟩
  rw [h3]
  obtain ⟨a, b, c, d1, e, f, g⟩ := d
  simp only at e1 e2 e3 e4 e5 e6 e7
  subst e1 e2 e3 e4 e5 e6 e7
  decide

/-! ## The receive loop (C7) -/

theorem step_frame (sid : Int) (goos : String) (s : State) (c : Nat) (frame : String)
    (h : s.main = Main.reading c) :
    step sid goos s (Input.received (Except.ok frame)) =
      some { s with tasks := s.tasks ++ (onFrame c frame).2
                    trace := s.trace ++ (onFrame c frame).1 } := by
  simp [step, h]

theorem run_frames (sid : Int) (goos : String) (c : Nat) :
    ∀ (frames : List String) (s : State), s.main = Main.reading c →
      run sid goos s (frames.map fun f => Input.received (Except.ok f)) =
        some { s with tasks := s.tasks ++ frames.flatMap (fun f => (onFrame c f).2)
                      trace := s.trace ++ frames.flatMap (fun f => (onFrame c f).1) } := by
  intro frames
  induction frames with
  | nil => intro s _; simp [run]
  | cons f fs ih =>
    intro s h
    simp only [List.map_cons, run, step_frame sid goos s c f h]
    rw [ih { s with tasks := s.tasks ++ (onFrame c f).2, trace := s.trace ++ (onFrame c f).1 } h]
    simp [List.flatMap_cons, List.append_assoc]

theorem onFrame_tasks (c : Nat) (f : String) : (onFrame c f).2 = (handlerFor c f).toList := by
  unfold onFrame handlerFor dispatch
  cases unmarshal f with
  | none => rfl
  | some data =>
    by_cases h1 : data.Action = "ping"
    · simp [h1]
    · by_cases h2 : data.Action = "info"
      · simp [h1, h2]
      · simp [h1, h2]

theorem onFrame_started (c : Nat) (f : String) :
    (onFrame c f).1.filterMap started = (handlerFor c f).toList := by
  unfold onFrame handlerFor dispatch
  cases unmarshal f with
  | none => rfl
  | some data =>
    by_cases h1 : data.Action = "ping"
    · simp [h1, started]
    · by_cases h2 : data.Action = "info"
      · simp [h1, h2, started]
      · simp [h1, h2]

theorem onFrame_quiet (c : Nat) (f : String) (e : Event) (he : e ∈ (onFrame c f).1) :
    (∀ c1 m, e ≠ Event.write c1 m) ∧ (∀ u, e ≠ Event.dial u) ∧ (∀ d, e ≠ Event.sleep d) := by
  unfold onFrame at he
  cases h : unmarshal f with
  | none =>
    simp only [h, List.mem_singleton] at he
    subst he
    exact ⟨nofun, nofun, nofun⟩
  | some data =>
    simp only [h] at he
    cases hd : dispatch c data with
    | none => simp [hd] at he
    | some t =>
      simp only [hd, List.mem_singleton] at he
      subst he
      exact ⟨nofun, nofun, nofun⟩

theorem flatMap_toList_eq_filterMap {α β : Type} (f : α → Option β) (l : List α) :
    l.flatMap (fun a => (f a).toList) = l.filterMap f := by
  induction l with
  | nil => rfl
  | cons a l ih =>
    simp only [List.flatMap_cons, List.filterMap_cons, ih]
    cases f a <;> rfl

theorem filterMap_flatMap_started (c : Nat) (frames : List String) :
    (frames.flatMap fun f => (onFrame c f).1).filterMap started = frames.filterMap (handlerFor c) := by
  induction frames with
  | nil => rfl
  | cons f fs ih =>
    simp only [List.flatMap_cons, List.filterMap_append, ih, onFrame_started, List.filterMap_cons]
    cases handlerFor c f <;> rfl

/-- C7. While the receive loop of connection `c` runs and every read succeeds,
the frames read start, in arrival order, exactly the handlers of the frames that
decode to a Message with action `ping` or `info`, each with the decoded
Message; nothing else is started, nothing is written, no new connection is
dialled and the loop keeps reading, so a frame that does not decode or has
another action changes nothing for the frames after it.  The next read error
ends the loop. -/
theorem receive_loop_dispatch (sid : Int) (goos : String) (s : State) (c : Nat)
    (frames : List String) (h : s.main = Main.reading c) :
    ∃ (s1 : State) (events : List Event),
      run sid goos s (frames.map fun f => Input.received (Except.ok f)) = some s1 ∧
      s1.main = Main.reading c ∧
      s1.conns = s.conns ∧
      s1.tasks = s.tasks ++ frames.filterMap (handlerFor c) ∧
      s1.trace = s.trace ++ events ∧
      events.filterMap started = frames.filterMap (handlerFor c) ∧
      (∀ e ∈ events, (∀ c1 m, e ≠ Event.write c1 m) ∧ (∀ u, e ≠ Event.dial u)) ∧
      (∀ err, ∃ s2, step sid goos s1 (Input.received (Except.error err)) = some s2 ∧
        s2.main = Main.dialing) := by
  refine ⟨_, frames.flatMap (fun f => (onFrame c f).1), run_frames sid goos c frames s h, h, rfl,
    ?_, rfl, filterMap_flatMap_started c frames, ?_, ?_⟩
  · show s.tasks ++ frames.flatMap (fun f => (onFrame c f).2) = _
    rw [show (fun f => (onFrame c f).2) = (fun f => (handlerFor c f).toList) from
      funext (onFrame_tasks c), flatMap_toList_eq_filterMap]
  · intro e he
    obtain ⟨f, _, hf⟩ := List.mem_flatMap.mp he
    exact ⟨(onFrame_quiet c f e hf).1, (onFrame_quiet c f e hf).2.1⟩
  · intro err
    simp [step, h]

theorem receive_loop_dispatch_witness :
    ∃ (s1 : State) (events : List Event),
      run 7 "linux" connected7 (sampleFrames.map fun f => Input.received (Except.ok f)) = some s1 ∧
      s1.main = Main.reading 0 ∧
      s1.tasks = [Task.heartbeat 0, Task.ping 0 samplePing] ∧
      s1.trace = connected7.trace ++ events ∧
      events.filterMap started = [Task.ping 0 samplePing] := by
  obtain ⟨s1, events, hrun, hmain, _, htasks, htrace, hstarted, _, _⟩ :=
    receive_loop_dispatch 7 "linux" connected7 0 sampleFrames rfl
  have hd : sampleFrames.filterMap (handlerFor 0) = [Task.ping 0 samplePing] := by decide
  exact ⟨s1, events, hrun, hmain, by rw [htasks, hd]; rfl, htrace, by rw [hstarted, hd]⟩

/-! ## The supervisor loop (C8) -/

theorem run_failures (sid : Int) (goos : String) :
    ∀ (errs : List String) (s : State), s.main = Main.dialing →
      run sid goos s (failures errs) =
        some { s with trace := s.trace ++ errs.flatMap fun err =>
          [Event.log (LogLine.connectFailed err), Event.sleep reconnectInterval,
            Event.dial webSocketURL] } := by
  intro errs
  induction errs with
  | nil => intro s _; simp [failures, run]
  | cons e es ih =>
    intro s h
    have h1 : step sid goos s (Input.dialed (some e)) = some { s with
        main := Main.sleeping
        trace := s.trace ++ [Event.log (LogLine.connectFailed e), Event.sleep reconnectInterval] } := by
      simp [step, h]
    have h2 : failures (e :: es) = Input.dialed (some e) :: Input.woke :: failures es := by
      simp [failures, List.flatMap_cons]
    have h3 : step sid goos { s with
        main := Main.sleeping
        trace := s.trace ++ [Event.log (LogLine.connectFailed e), Event.sleep reconnectInterval] }
        Input.woke = some { s with
        main := Main.dialing
        trace := s.trace ++ [Event.log (LogLine.connectFailed e), Event.sleep reconnectInterval]
          ++ [Event.dial webSocketURL] } := rfl
    rw [h2, run, h1]
    show run sid goos _ (Input.woke :: failures es) = _
    rw [run, h3]
    show run sid goos _ (failures es) = _
    rw [ih _ rfl]
    simp [h, List.flatMap_cons]

theorem sleeps_of_failures (errs : List String) :
    (errs.flatMap fun err => [Event.log (LogLine.connectFailed err),
        Event.sleep reconnectInterval, Event.dial webSocketURL]).filter isSleep =
      List.replicate errs.length (Event.sleep reconnectInterval) := by
  induction errs with
  | nil => rfl
  | cons e es ih =>
    rw [List.flatMap_cons, List.filter_append, ih]
    rfl

theorem dials_of_failures (errs : List String) :
    ((errs.flatMap fun err => [Event.log (LogLine.connectFailed err),
        Event.sleep reconnectInterval, Event.dial webSocketURL]).filter isDial).length =
      errs.length := by
  induction errs with
  | nil => rfl
  | cons e es ih =>
    rw [List.flatMap_cons, List.filter_append, List.length_append, ih, List.length_cons]
    simp [List.filter, isDial]
    omega

/-- C8. When the first `N` connection attempts fail, the supervisor is in its
`(N+1)`-th `Dial` call: it has made `N+1` attempts and slept `N` times, once
after each failed attempt and before the next one, each time for
`reconnectInterval`, which is 5 seconds; whatever that attempt returns is
handled, the program never leaves the loop. -/
theorem reconnect_after_failures (sid : Int) (goos : String) (errs : List String) :
    ∃ s : State, run sid goos start (failures errs) = some s ∧
      s.main = Main.dialing ∧
      s.trace = Event.dial webSocketURL :: errs.flatMap (fun err =>
        [Event.log (LogLine.connectFailed err), Event.sleep reconnectInterval,
          Event.dial webSocketURL]) ∧
      (s.trace.filter isDial).length = errs.length + 1 ∧
      (s.trace.filter isSleep).length = errs.length ∧
      s.trace.filter isSleep = List.replicate errs.length (Event.sleep (5 * 1000000000)) ∧
      (∀ r, (step sid goos s (Input.dialed r)).isSome = true) := by
  refine ⟨{ start with trace := Event.dial webSocketURL :: errs.flatMap (fun err =>
        [Event.log (LogLine.connectFailed err), Event.sleep reconnectInterval,
          Event.dial webSocketURL]) }, ?_, rfl, rfl, ?_, ?_, ?_, ?_⟩
  · rw [run_failures sid goos errs start rfl]
    rfl
  · show ((Event.dial webSocketURL :: _).filter isDial).length = _
    rw [List.filter_cons_of_pos (by rfl), List.length_cons, dials_of_failures]
  · show ((Event.dial webSocketURL :: _).filter isSleep).length = _
    rw [List.filter_cons_of_neg (by simp [isSleep]), sleeps_of_failures, List.length_replicate]
  · show (Event.dial webSocketURL :: _).filter isSleep = _
    rw [List.filter_cons_of_neg (by simp [isSleep]), sleeps_of_failures]
    rfl
  · intro r
    cases r <;> simp [step, start]

/-! ## Reconnecting after a session (C9) -/

/-- C9, as stated, fails: after `connectWebSocket(7)` connected and the first
read failed, the next `Dial` follows the disconnect log line directly; the run
contains no sleep at all. -/
theorem redial_without_wait :
    ∃ s : State,
      run 7 "linux" start [Input.dialed none, Input.received (Except.error "EOF")] = some s ∧
      s.main = Main.dialing ∧
      s.trace = [Event.dial webSocketURL, Event.log LogLine.connected,
        Event.write 0 (initMessage "7"), Event.go (Task.heartbeat 0),
        Event.log (LogLine.disconnected "EOF"), Event.dial webSocketURL] ∧
      s.trace.filter isSleep = [] :=
  ⟨_, rfl, rfl, by decide, by decide⟩

/-- C9, amended. When a read fails, the same step that ends the session makes
the next connection attempt, with no wait in between; the supervisor sleeps
only on a failed connection attempt, and then for `reconnectInterval`. -/
theorem redial_after_read_error (sid : Int) (goos : String) (s : State) :
    (∀ c err, s.main = Main.reading c →
      step sid goos s (Input.received (Except.error err)) =
        some { s with main := Main.dialing
                      trace := s.trace ++
                        [Event.log (LogLine.disconnected err), Event.dial webSocketURL] }) ∧
    (∀ (i : Input) (s1 : State) (events : List Event) (d : Nat),
      step sid goos s i = some s1 → s1.trace = s.trace ++ events → Event.sleep d ∈ events →
      d = reconnectInterval ∧ s.main = Main.dialing ∧ ∃ err, i = Input.dialed (some err)) := by
  constructor
  · intro c err h
    simp [step, h]
  · intro i s1 events d hstep htrace hmem
    have key : ∀ new : List Event, s1.trace = s.trace ++ new → Event.sleep d ∈ new := by
      intro new hnew
      have : s.trace ++ events = s.trace ++ new := by rw [← htrace, hnew]
      rw [List.append_cancel_left this] at hmem
      exact hmem
    cases i with
    | dialed r =>
      cases r with
      | none =>
        cases hm : s.main <;> simp [step, hm] at hstep
        subst hstep
        have := key _ rfl
        simp at this
      | some err =>
        cases hm : s.main <;> simp [step, hm] at hstep
        subst hstep
        have := key _ rfl
        simp at this
        exact ⟨this, rfl, ⟨err, rfl⟩⟩
    | woke =>
      cases hm : s.main <;> simp [step, hm] at hstep
      subst hstep
      have := key _ rfl
      simp at this
    | received r =>
      cases r with
      | error err =>
        cases hm : s.main <;> simp [step, hm] at hstep
        subst hstep
        have := key _ rfl
        simp at this
      | ok frame =>
        cases hm : s.main <;> simp [step, hm] at hstep
        subst hstep
        have := key _ rfl
        rename_i c
        exact absurd rfl ((onFrame_quiet c frame _ this).2.2 d)
    | beat k =>
      simp only [step] at hstep
      split at hstep
      · simp at hstep
        subst hstep
        have := key _ rfl
        simp at this
      · simp at hstep
    | pingRuns k lib =>
      simp only [step] at hstep
      split at hstep
      · simp at hstep
        subst hstep
        have := key _ rfl
        simp only [List.mem_map] at this
        obtain ⟨e, _, he⟩ := this
        cases e <;> simp [effectEvent] at he
      · simp at hstep
    | infoRuns k lib =>
      simp only [step] at hstep
      split at hstep
      · simp at hstep
        subst hstep
        have := key _ rfl
        simp only [List.mem_map] at this
        obtain ⟨e, _, he⟩ := this
        cases e <;> simp [effectEvent] at he
      · simp at hstep

theorem redial_after_read_error_witness :
    step 7 "linux" connected7 (Input.received (Except.error "EOF")) =
      some { connected7 with
        main := Main.dialing
        trace := connected7.trace ++
          [Event.log (LogLine.disconnected "EOF"), Event.dial webSocketURL] } ∧
    (5000000000 = reconnectInterval ∧ start.main = Main.dialing ∧
      ∃ err, Input.dialed (some "refused") = Input.dialed (some err)) :=
  ⟨(redial_after_read_error 7 "linux" connected7).1 0 "EOF" rfl,
   (redial_after_read_error 7 "linux" start).2 (Input.dialed (some "refused"))
      { start with
        main := Main.sleeping
        trace := start.trace ++
          [Event.log (LogLine.connectFailed "refused"), Event.sleep reconnectInterval] }
      [Event.log (LogLine.connectFailed "refused"), Event.sleep reconnectInterval] 5000000000
      rfl rfl (by decide)⟩

/-! ## Heartbeat goroutines (C10) -/

/-- C10, as stated, fails: after the receive loop of connection 0 ended on a
read error, its heartbeat goroutine still writes the heartbeat Message on
connection 0; and once a second connection is open two heartbeat goroutines
are alive. -/
theorem heartbeat_outlives_session :
    (∃ s : State,
      run 7 "linux" start
        [Input.dialed none, Input.received (Except.error "EOF"), Input.beat 0] = some s ∧
      s.trace = [Event.dial webSocketURL, Event.log LogLine.connected,
        Event.write 0 (initMessage "7"), Event.go (Task.heartbeat 0),
        Event.log (LogLine.disconnected "EOF"), Event.dial webSocketURL,
        Event.write 0 { Type_ := "node", Sid := "7", Action := "head", Code := 200 },
        Event.heartbeatSleep 0 heartbeatInterval]) ∧
    (∃ s : State,
      run 7 "linux" start
        [Input.dialed none, Input.received (Except.error "EOF"), Input.dialed none] = some s ∧
      liveHeartbeats s = [Task.heartbeat 0, Task.heartbeat 1]) :=
  ⟨⟨_, rfl, by decide⟩, ⟨_, rfl, by decide⟩⟩

theorem filter_eraseIdx_of_not {α : Type} (p : α → Bool) :
    ∀ (l : List α) (i : Nat) (a : α), l.get? i = some a → p a = false →
      (l.eraseIdx i).filter p = l.filter p := by
  intro l
  induction l with
  | nil => intro i a h; simp at h
  | cons x xs ih =>
    intro i a h hp
    cases i with
    | zero =>
      simp only [List.get?_cons_zero, Option.some.injEq] at h
      subst h
      simp [List.eraseIdx, List.filter, hp]
    | succ i =>
      simp only [List.get?_cons_succ] at h
      simp only [List.eraseIdx, List.filter]
      rw [ih i a h hp]

theorem onFrame_no_heartbeat (c : Nat) (f : String) : (onFrame c f).2.filter isHeartbeat = [] := by
  unfold onFrame
  cases unmarshal f with
  | none => rfl
  | some data =>
    simp only [dispatch]
    by_cases h1 : data.Action = "ping"
    · simp [h1, isHeartbeat]
    · by_cases h2 : data.Action = "info"
      · simp [h1, h2, isHeartbeat]
      · simp [h1, h2]

theorem step_heartbeatInv (sid : Int) (goos : String) (s s1 : State) (i : Input)
    (hstep : step sid goos s i = some s1) (hinv : HeartbeatInv s) : HeartbeatInv s1 := by
  unfold HeartbeatInv liveHeartbeats at *
  cases i with
  | dialed r =>
    cases r with
    | none =>
      cases hm : s.main <;> simp [step, hm] at hstep
      subst hstep
      simp [List.filter_append, hinv, List.range_succ, isHeartbeat]
    | some err =>
      cases hm : s.main <;> simp [step, hm] at hstep
      subst hstep
      exact hinv
  | woke =>
    cases hm : s.main <;> simp [step, hm] at hstep
    subst hstep
    exact hinv
  | received r =>
    cases r with
    | error err =>
      cases hm : s.main <;> simp [step, hm] at hstep
      subst hstep
      exact hinv
    | ok frame =>
      cases hm : s.main <;> simp [step, hm] at hstep
      subst hstep
      simp [List.filter_append, hinv, onFrame_no_heartbeat]
  | beat k =>
    simp only [step] at hstep
    split at hstep
    · simp at hstep
      subst hstep
      exact hinv
    · simp at hstep
  | pingRuns k lib =>
    simp only [step] at hstep
    split at hstep
    · rename_i c data hk
      simp at hstep
      subst hstep
      show (s.tasks.eraseIdx k).filter isHeartbeat = _
      rw [filter_eraseIdx_of_not isHeartbeat s.tasks k _ hk rfl]
      exact hinv
    · simp at hstep
  | infoRuns k lib =>
    simp only [step] at hstep
    split at hstep
    · rename_i c data hk
      simp at hstep
      subst hstep
      show (s.tasks.eraseIdx k).filter isHeartbeat = _
      rw [filter_eraseIdx_of_not isHeartbeat s.tasks k _ hk rfl]
      exact hinv
    · simp at hstep

theorem run_heartbeatInv (sid : Int) (goos : String) :
    ∀ (inputs : List Input) (s s1 : State), run sid goos s inputs = some s1 →
      HeartbeatInv s → HeartbeatInv s1 := by
  intro inputs
  induction inputs with
  | nil =>
    intro s s1 h hinv
    simp only [run, Option.some.injEq] at h
    subst h
    exact hinv
  | cons i is ih =>
    intro s s1 h hinv
    simp only [run] at h
    cases hs : step sid goos s i with
    | none => simp [hs] at h
    | some s2 =>
      simp only [hs] at h
      exact ih s2 s1 h (step_heartbeatInv sid goos s s2 i hs hinv)

/-- C10, amended. The heartbeat goroutine of a session is never stopped: in
every run of `connectWebSocket`, whatever sessions were opened and closed, the
live heartbeat goroutines are exactly one per connection opened so far (so
their number is the number of connections opened), and each of them, whenever
it gets to run, writes the heartbeat Message on its own connection and sleeps
for the heartbeat period again. -/
theorem heartbeat_never_stops (sid : Int) (goos : String) (inputs : List Input) (s : State)
    (hrun : run sid goos start inputs = some s) :
    liveHeartbeats s = (List.range s.conns).map Task.heartbeat ∧
    (liveHeartbeats s).length = s.conns ∧
    (∀ c, c < s.conns → Task.heartbeat c ∈ s.tasks) ∧
    (∀ k c, s.tasks.get? k = some (Task.heartbeat c) →
      step sid goos s (Input.beat k) =
        some { s with trace := s.trace ++
          [Event.write c { Type_ := "node", Sid := formatInt sid, Action := "head", Code := 200 },
            Event.heartbeatSleep c heartbeatInterval] }) := by
  have hinv : HeartbeatInv s := run_heartbeatInv sid goos inputs start s hrun rfl
  refine ⟨hinv, ?_, ?_, ?_⟩
  · rw [hinv]; simp
  · intro c hc
    have : Task.heartbeat c ∈ liveHeartbeats s := by
      rw [hinv]
      exact List.mem_map.mpr ⟨c, List.mem_range.mpr hc, rfl⟩
    exact (List.mem_filter.mp this).1
  · intro k c hk
    simp only [step, hk, heartbeatMessage]

theorem heartbeat_never_stops_witness :
    ∃ s : State,
      run 7 "linux" start
        [Input.dialed none, Input.received (Except.error "EOF"), Input.dialed none] = some s ∧
      (liveHeartbeats s).length = 2 ∧ Task.heartbeat 0 ∈ s.tasks ∧
      (step 7 "linux" s (Input.beat 0)).isSome = true := by
  refine ⟨_, rfl, ?_, ?_, ?_⟩
  · exact (heartbeat_never_stops 7 "linux"
      [Input.dialed none, Input.received (Except.error "EOF"), Input.dialed none] _ rfl).2.1
  · exact (heartbeat_never_stops 7 "linux"
      [Input.dialed none, Input.received (Except.error "EOF"), Input.dialed none] _ rfl).2.2.1 0
        (by decide)
  · rw [(heartbeat_never_stops 7 "linux"
      [Input.dialed none, Input.received (Except.error "EOF"), Input.dialed none] _ rfl).2.2.2 0 0 rfl]
    rfl

end StatusGo
